import Mathlib

/-!
Verification of the fact-based knowledge manager's reconciliation engine.

Python strings are embedded as `List Char` (`Str`); the string methods the
source uses (`strip`, `split`, `startswith`, `endswith`, `replace`, `join`,
`lower`, `in`, `int(...)`, `str(...)`) are defined below as executable
functions with the same behaviour on the inputs that occur in the program.
`int(...)` is modelled on optionally signed decimal digit strings
(Python's underscore grouping and non-ASCII digits are not modelled), and
whitespace is the four ASCII whitespace characters space, tab, CR, LF.
-/

set_option maxHeartbeats 1000000

namespace KM

abbrev Str := List Char

/-- Python `s.startswith(p)`. -/
def strStarts : Str → Str → Bool
  | _, [] => true
  | [], _ :: _ => false
  | c :: cs, p :: ps => c == p && strStarts cs ps

/-- Python `s.endswith(p)`. -/
def strEnds (s p : Str) : Bool := strStarts s.reverse p.reverse

/-- Generic both-ends strip used by Python `str.strip` (with and without
an argument): drop characters satisfying `p` from both ends. -/
def stripBy (p : Char → Bool) (s : Str) : Str :=
  ((s.dropWhile p).reverse.dropWhile p).reverse

/-- Python `s.strip()`. -/
def stripWs (s : Str) : Str := stripBy (fun c => c.isWhitespace) s

/-- Python `s.strip(cs)` for a character-set argument `cs`. -/
def stripCs (cs : Str) (s : Str) : Str := stripBy (fun c => cs.contains c) s

/-- Python `s.split(sep)` for a single-character separator. -/
def splitCh (c : Char) : Str → List Str
  | [] => [[]]
  | x :: xs =>
    if x == c then [] :: splitCh c xs
    else
      match splitCh c xs with
      | [] => [[x]]
      | r :: rs => (x :: r) :: rs

/-- Python `sep.join(parts)` for a single-character separator. -/
def joinSep (c : Char) : List Str → Str
  | [] => []
  | [s] => s
  | s :: ss => s ++ c :: joinSep c ss

/-- Helper for Python `s.replace(pat, rep)`: fuel-indexed left-to-right
scan replacing non-overlapping occurrences (the behaviour of Python's
empty-pattern `replace` is not modelled; the program only replaces
`'**'`). -/
def pyReplaceAux (pat rep : Str) : Nat → Str → Str
  | 0, s => s
  | _ + 1, [] => []
  | fuel + 1, c :: rest =>
    if strStarts (c :: rest) pat then
      rep ++ pyReplaceAux pat rep fuel (List.drop pat.length (c :: rest))
    else
      c :: pyReplaceAux pat rep fuel rest

/-- Python `s.replace(pat, rep)` (for non-empty `pat`). -/
def pyReplace (s pat rep : Str) : Str := pyReplaceAux pat rep s.length s

/-- Python `s.lower()` (ASCII). -/
def toLowerStr (s : Str) : Str := s.map Char.toLower

/-- Python `pat in s` (substring test). -/
def containsSub : Str → Str → Bool
  | s, p =>
    if strStarts s p then true
    else
      match s with
      | [] => false
      | _ :: xs => containsSub xs p

/-- Decimal digit character for `d < 10`, as produced by Python `str`. -/
def digitChar' (d : Nat) : Char := Char.ofNat (48 + d)

/-- Helper for Python `str(n)` on naturals: fuel-indexed most-significant
first digit rendering. -/
def natCharsAux : Nat → Nat → Str
  | 0, _ => []
  | fuel + 1, n =>
    if n < 10 then [digitChar' n]
    else natCharsAux fuel (n / 10) ++ [digitChar' (n % 10)]

/-- Python `str(n)` for a natural number. -/
def natChars (n : Nat) : Str := natCharsAux (n + 1) n

/-- Python `str(n)` for an integer. -/
def intChars : Int → Str
  | Int.ofNat n => natChars n
  | Int.negSucc m => '-' :: natChars (m + 1)

/-- Numeric value of a digit character. -/
def digitVal (c : Char) : Nat := c.toNat - 48

/-- Python `int(s)` on an unsigned digit string: `none` models `ValueError`. -/
def parseNatPy (s : Str) : Option Nat :=
  if s ≠ [] && s.all (fun c => c.isDigit) then
    some (s.foldl (fun a c => 10 * a + digitVal c) 0)
  else
    none

/-- Python `int(s)`: strips whitespace, accepts one optional sign, then a
non-empty run of decimal digits; `none` models `ValueError`. -/
def parseIntPy (s : Str) : Option Int :=
  if strStarts (stripWs s) ['-'] then
    (parseNatPy ((stripWs s).drop 1)).map (fun n => -(n : Int))
  else if strStarts (stripWs s) ['+'] then
    (parseNatPy ((stripWs s).drop 1)).map (fun n => (n : Int))
  else (parseNatPy (stripWs s)).map (fun n => (n : Int))

/-! Data model (`src/models.py`) -/

/-- Model of `models.Fact`: a single numbered fact. -/
structure Fact where
  number : Int
  description : Str
  last_validated : Str
deriving DecidableEq

/-- Model of `models.KnowledgeBase`: titled ordered fact collection. -/
structure KnowledgeBase where
  title : Str
  facts : List Fact
deriving DecidableEq

/-- Model of `models.SlackMessage` (the timestamp field is represented as opaque
text; none of the verified code reads it). -/
structure SlackMessage where
  content : Str
  timestamp : Option Str := none
  channel : Option Str := none
  user : Option Str := none
deriving DecidableEq

/-- Model of `models.ProcessingRequest`. -/
structure ProcessingRequest where
  slack_message : SlackMessage
  current_knowledge_base : KnowledgeBase
  guidelines : Str
deriving DecidableEq

/-- Model of `models.ProcessingResponse`. -/
structure ProcessingResponse where
  updated_knowledge_base : KnowledgeBase
  processing_log : Str
  success : Bool
  error_message : Option Str := none
deriving DecidableEq

/-- Model of `Fact.to_table_row`: `| **{number}** | {description} | {last_validated} |`. -/
def Fact.to_table_row (f : Fact) : Str :=
  "| **".toList ++ intChars f.number ++ "** | ".toList ++ f.description
    ++ " | ".toList ++ f.last_validated ++ " |".toList

/-- The table header row emitted by `KnowledgeBase.to_markdown` (without
its trailing newline). -/
def tableHeaderLine : Str := "| **#** | **Fact** | **Time Last Validated** |".toList

/-- The table separator row emitted by `KnowledgeBase.to_markdown` (without
its trailing newline). -/
def tableSeparatorLine : Str := "| ----- | -------- | ----------------------- |".toList

/-- Model of `KnowledgeBase.to_markdown`: heading, header row, separator row, then
one row per fact joined by newlines. -/
def KnowledgeBase.to_markdown (kb : KnowledgeBase) : Str :=
  "# ".toList ++ kb.title ++ "\n\n".toList
    ++ (tableHeaderLine ++ "\n".toList) ++ (tableSeparatorLine ++ "\n".toList)
    ++ joinSep '\n' (kb.facts.map Fact.to_table_row)

/-! Response parser (`ChatGPTService._parse_knowledge_base_response`) -/

/-- Default title used when no `#` heading line is found. -/
def defaultTitle : Str := "Current RN Project Facts".toList

/-- Header-row marker prefix checked by the parser. -/
def hdrMark : Str := "| **#**".toList

/-- Separator-row marker prefix checked by the parser. -/
def sepMark : Str := "| -----".toList

/-- Fact-row prefix checked by the parser. -/
def rowMark : Str := "| **".toList

/-- Fact-row suffix checked by the parser. -/
def rowEnd : Str := " |".toList

/-- The bold markup stripped from the number field. -/
def boldMark : Str := "**".toList

/-- Test `line.startswith('| **#**') or line.startswith('| -----')`. -/
def lineMarker (l : Str) : Bool := strStarts l hdrMark || strStarts l sepMark

/-- Test `line.startswith('| **') and line.endswith(' |')`. -/
def rowShaped (l : Str) : Bool := strStarts l rowMark && strEnds l rowEnd

/-- Computation `[part.strip() for part in line.split('|')[1:-1]]`. -/
def rowParts (l : Str) : List Str := (((splitCh '|' l).drop 1).dropLast).map stripWs

/-- Computation `int(parts[0].replace('**', '').strip())` as an `Option`
(`none` models the caught `ValueError`). -/
def rowNumVal (l : Str) : Option Int :=
  match rowParts l with
  | p0 :: _ :: _ :: _ => parseIntPy (stripWs (pyReplace p0 boldMark []))
  | _ => none

/-- Parser fold state: the `in_table` flag, the accumulated facts, and the
number of `logger.warning` calls issued for unparseable rows. -/
structure PState where
  in_table : Bool
  facts : List Fact
  warnings : Nat
deriving DecidableEq

/-- One iteration of the table-parsing loop of
`_parse_knowledge_base_response`. -/
def parseLine (st : PState) (line0 : Str) : PState :=
  let line := stripWs line0
  if lineMarker line then { st with in_table := true }
  else if st.in_table && rowShaped line then
    match rowParts line with
    | p0 :: p1 :: p2 :: _ =>
      match parseIntPy (stripWs (pyReplace p0 boldMark [])) with
      | some n => { st with facts := st.facts ++ [⟨n, stripWs p1, stripWs p2⟩] }
      | none => { st with warnings := st.warnings + 1 }
    | _ => st
  else st

/-- The title-finding loop of `_parse_knowledge_base_response`: first line
starting with `#` but not `##`, stripped of `#` and spaces; otherwise the
default title. -/
def findTitle : List Str → Str
  | [] => defaultTitle
  | l :: ls =>
    if strStarts l ("#".toList) && !strStarts l ("##".toList) then
      stripWs (stripCs ("# ".toList) l)
    else findTitle ls

/-- Run the table-parsing loop over `response.strip().split('\n')`. -/
def parseScan (response : Str) : PState :=
  (splitCh '\n' (stripWs response)).foldl parseLine ⟨false, [], 0⟩

/-- Model of `ChatGPTService._parse_knowledge_base_response`. -/
def parse_knowledge_base_response (response : Str) : KnowledgeBase :=
  ⟨findTitle (splitCh '\n' (stripWs response)), (parseScan response).facts⟩

/-- Number of per-row `logger.warning` diagnostics issued while parsing
`response` (one per row whose number field fails `int(...)`). -/
def parseWarnings (response : Str) : Nat := (parseScan response).warnings

/-! Reconciliation orchestrator (`KnowledgeProcessor`) -/

/-- Outcome of the opaque oracle transport: `none` models any exception
inside `ChatGPTService.update_knowledge_base` (API error, timeout, ...);
`some reply` models a successful call returning `reply` as the message
content. -/
abbrev OracleOutcome := Option Str

/-- Model of `ChatGPTService.update_knowledge_base`: on transport success the reply
is parsed (the parser is total, so this path cannot fail); on any exception
the method returns `None`. The message, current KB and guidelines only
flow into the prompt, which the oracle outcome already abstracts. -/
def update_knowledge_base (_msg : SlackMessage) (_kb : KnowledgeBase)
    (_guidelines : Str) (oracle : OracleOutcome) : Option KnowledgeBase :=
  oracle.map parse_knowledge_base_response

/-- The processing-log text returned by the orchestrator
(`logger.get_processing_summary()`); its content is not modelled. -/
def processingLog : Str := []

/-- The error message built when the ChatGPT service returns `None`. -/
def failMsg : Str :=
  "Failed to update knowledge base - ChatGPT service returned None".toList

/-- Model of `KnowledgeProcessor.process_custom_input`. -/
def process_custom_input (req : ProcessingRequest) (oracle : OracleOutcome) :
    ProcessingResponse :=
  match update_knowledge_base req.slack_message req.current_knowledge_base
      req.guidelines oracle with
  | none => ⟨req.current_knowledge_base, processingLog, false, some failMsg⟩
  | some kb => ⟨kb, processingLog, true, none⟩

/-! Task classifier (`TaskGenerator._analyze_if_task_needs_human`) -/

/-- List `human_needed_keywords` from `task_generator.py`. -/
def human_needed_keywords : List Str :=
  (["clarify", "confirm", "verify with", "ask", "check with",
    "review with", "validate with", "coordinate with",
    "decision", "approve", "priority", "stakeholder",
    "external", "contact", "reach out", "interview",
    "survey", "gather feedback", "meeting", "discussion",
    "strategic", "business judgment", "policy",
    "manual review", "human verification"] : List String).map String.toList

/-- List `automated_keywords` from `task_generator.py`. -/
def automated_keywords : List Str :=
  (["update", "merge", "consolidate", "audit", "scan",
    "refresh", "revise", "archive", "validate dates",
    "check existing", "review facts", "update validation",
    "remove duplicate", "fix", "correct", "standardize"] : List String).map String.toList

/-- The knowledge-base-reference indicators from `task_generator.py`. -/
def kb_indicators : List Str :=
  (["facts", "knowledge base", "validation", "data"] : List String).map String.toList

/-- Model of `TaskGenerator._analyze_if_task_needs_human`: `true` means the task
requires human input. -/
def analyze_if_task_needs_human (task : Str) : Bool :=
  let task_lower := toLowerStr task
  if human_needed_keywords.any (fun k => containsSub task_lower k) then true
  else if automated_keywords.any (fun k =>
      containsSub task_lower k
        && kb_indicators.any (fun i => containsSub task_lower i)) then false
  else true

/-! Hardcoded data and remote store (`hardcoded_data.py`, `supabase_service.py`) -/

/-- The hardcoded knowledge base returned by
`hardcoded_data.get_current_knowledge_base`. -/
def hardcodedKnowledgeBase : KnowledgeBase :=
  ⟨"Current RN Project Facts".toList,
    [⟨1, ("Rewards Network (RN) is a network of ~18 000 local restaurants whose receipts earn a %-back reward and will be ingested as regular Fetch offers.").toList,
        "2025-04-15".toList⟩,
     ⟨2, ("RN integration currently has ~11,287 live offers (scaled from initial 140), with location matching and credit card capture issues having limited the rollout from the planned 14 400.").toList,
        "2025-06-11".toList⟩,
     ⟨6, ("Key results include generating $10.6 M ARR by EOQ2 2025 and $11.6 M revenue in FY25. Current ARR is $8.7M as of June 2025.").toList,
        "2025-06-11".toList⟩,
     ⟨7, ("Target is 90% of restaurants in-app by end of year. Current coverage is 62.0%.").toList,
        "2025-06-11".toList⟩,
     ⟨8, ("Card-info capture goals rise to 65% of receipts in H1 and 80% in H2. Current capture rate is 53.8%.").toList,
        "2025-06-11".toList⟩,
     ⟨22, ("Payment capture feature tooling code is complete but not yet released; will reduce support lift once deployed.").toList,
        "2025-06-11".toList⟩,
     ⟨31, ("Payment capture feature has two components: rescan prompt (backend in review, mobile complete) and manual card input with cross-referencing validation (postponed while ChatGPT API improvements are in progress).").toList,
        "2025-06-11".toList⟩,
     ⟨51, ("Current RN restaurant coverage is 62.0% with 11,287 active offers out of 18,000 possible restaurants in the network.").toList,
        "2025-06-11".toList⟩,
     ⟨55, ("Payment capture feature was approved in March 2025 following a stakeholder presentation that addressed feature-risk concerns; a comprehensive risk analysis projected very low error rates for most users.").toList,
        "2025-06-11".toList⟩,
     ⟨57, ("RN deactivates and activates offers daily based on restaurant participation. Offer reactivation functionality has not yet been implemented.").toList,
        "2025-06-11".toList⟩]⟩

/-- State of the remote `facts` store as seen by
`SupabaseService.fetch_knowledge_base`: client construction failed or
credentials missing, the query raised, or the query returned `rows`
(already ordered by number by the server). -/
inductive RemoteFacts where
  | noClient
  | err
  | ok (rows : List Fact)
deriving DecidableEq

/-- Model of `SupabaseService.fetch_knowledge_base`: `None` without a client, on any
exception, and on an empty result; otherwise a `KnowledgeBase` titled
`Current RN Project Facts` holding the returned rows. -/
def fetch_knowledge_base : RemoteFacts → Option KnowledgeBase
  | .noClient => none
  | .err => none
  | .ok rows => if rows.isEmpty then none else some ⟨defaultTitle, rows⟩

/-- The environment available when `get_current_knowledge_base` runs: the
remote store state and the contents of a local snapshot file, when one is
present. -/
structure DataEnv where
  remote : RemoteFacts
  snapshot : Option (List Fact)
deriving DecidableEq

/-- Model of `hardcoded_data.get_current_knowledge_base`: the source builds the
hardcoded fact list and returns it; it performs no remote read and opens no
snapshot file, so the result is independent of the environment. -/
def get_current_knowledge_base (_env : DataEnv) : KnowledgeBase :=
  hardcodedKnowledgeBase

/-! Task status transitions (`task_manager.py`, `supabase_service.py`) -/

/-- State of the remote `tasks` store as seen by
`SupabaseService.update_task_status`. -/
structure TaskStore where
  client_present : Bool
  exec_raises : Bool
deriving DecidableEq

/-- Model of `SupabaseService.update_task_status(task_id, status)`: `False` without
a client or when the update raises, `True` otherwise (the method does not
check whether any row matched the id). -/
def update_task_status (st : TaskStore) (_task_id : Int) (_status : Str) : Bool :=
  if !st.client_present then false
  else if st.exec_raises then false
  else true

/-- A Python positional-argument value for the dynamic call model. -/
inductive PyVal where
  | int (n : Int)
  | str (s : Str)
  | pyNone
deriving DecidableEq

/-- The `TypeError` message Python raises for the surplus argument. -/
def typeErrorMsg : Str :=
  "update_task_status() takes 3 positional arguments but 4 were given".toList

/-- Python-call semantics of `self.supabase_service.update_task_status(...)`
with an explicit positional-argument list: the method accepts exactly two
arguments besides `self`, so any other arity raises `TypeError`. -/
def call_update_task_status (st : TaskStore) (args : List PyVal) :
    Except Str Bool :=
  match args with
  | [PyVal.int tid, PyVal.str status] => .ok (update_task_status st tid status)
  | _ => .error typeErrorMsg

/-- Convert an optional string argument to the passed Python value. -/
def optVal : Option Str → PyVal
  | none => PyVal.pyNone
  | some s => PyVal.str s

/-- Model of `TaskManager.mark_task_in_progress`. -/
def mark_task_in_progress (st : TaskStore) (task_id : Int) : Except Str Bool :=
  call_update_task_status st [PyVal.int task_id, PyVal.str ("in_progress".toList)]

/-- Model of `TaskManager.mark_task_completed`: forwards `completion_notes` as a
third positional argument. -/
def mark_task_completed (st : TaskStore) (task_id : Int)
    (completion_notes : Option Str) : Except Str Bool :=
  call_update_task_status st
    [PyVal.int task_id, PyVal.str ("completed".toList), optVal completion_notes]

/-- Model of `TaskManager.cancel_task`: forwards `reason` as a third positional
argument. -/
def cancel_task (st : TaskStore) (task_id : Int) (reason : Option Str) :
    Except Str Bool :=
  call_update_task_status st
    [PyVal.int task_id, PyVal.str ("cancelled".toList), optVal reason]

/-! Oracle request shapes (`chatgpt_service.py`, `task_executor.py`) -/

/-- Message role in a chat-completion request. -/
inductive Role where
  | system
  | user
deriving DecidableEq

/-- A role-tagged message. -/
structure ChatMessage where
  role : Role
  content : Str
deriving DecidableEq

/-- A chat-completion request as assembled by the source (the float
temperature `0.1` is represented exactly as the rational `0.1`). -/
structure ChatRequest where
  model : Str
  messages : List ChatMessage
  temperature : Option Rat
  max_tokens : Option Nat
  max_completion_tokens : Option Nat
deriving DecidableEq

/-- System text used by `ChatGPTService.update_knowledge_base`. -/
def kbSystemText : Str :=
  "You are a precise fact-based knowledge management system. Follow instructions exactly.".toList

/-- The request `ChatGPTService.update_knowledge_base` sends: `o1`-prefixed
models get a single user message (system text folded into it) and no
temperature; every other model gets a system plus user message with
temperature `0.1`. -/
def update_kb_request (model prompt : Str) : ChatRequest :=
  if strStarts model ("o1".toList) then
    ⟨model, [⟨Role.user, kbSystemText ++ "\n\n".toList ++ prompt⟩],
      none, none, some 4000⟩
  else
    ⟨model, [⟨Role.system, kbSystemText⟩, ⟨Role.user, prompt⟩],
      some (0.1 : Rat), some 4000, none⟩

/-- System text used by `TaskExecutor.execute_automated_tasks`. -/
def execSystemText : Str :=
  "You are a precise fact-based knowledge management system. Execute the task exactly as specified.".toList

/-- The request `TaskExecutor.execute_automated_tasks` sends per task:
`o1`- or `o3`-prefixed models get a single user message and no temperature;
every other model gets a system plus user message with temperature `0.1`. -/
def task_exec_request (model prompt : Str) : ChatRequest :=
  if strStarts model ("o1".toList) || strStarts model ("o3".toList) then
    ⟨model, [⟨Role.user, execSystemText ++ "\n\n".toList ++ prompt⟩],
      none, none, some 4000⟩
  else
    ⟨model, [⟨Role.system, execSystemText⟩, ⟨Role.user, prompt⟩],
      some (0.1 : Rat), some 4000, none⟩

/-! Side conditions and skip classification used by the claims -/

/-- A field value that survives the parser's per-field `strip` and the
row/line splitting: trimmed, no `|`, no newline. -/
def wellFormedField (s : Str) : Prop := stripWs s = s ∧ '|' ∉ s ∧ '\n' ∉ s

instance (s : Str) : Decidable (wellFormedField s) :=
  inferInstanceAs (Decidable (_ ∧ _ ∧ _))

/-- A well-formed fact: non-empty trimmed description and trimmed
validation date, neither containing `|` or a newline. -/
def wellFormedFact (f : Fact) : Prop :=
  f.description ≠ [] ∧ wellFormedField f.description
    ∧ wellFormedField f.last_validated

instance (f : Fact) : Decidable (wellFormedFact f) :=
  inferInstanceAs (Decidable (_ ∧ _ ∧ _))

/-- A title that survives the parser's `line.strip('# ').strip()`
extraction: trimmed, not starting or ending with `#` or a space, and
containing no newline. -/
def wellFormedTitle (t : Str) : Prop :=
  stripWs t = t ∧ stripCs ("# ".toList) t = t ∧ '\n' ∉ t

instance (t : Str) : Decidable (wellFormedTitle t) :=
  inferInstanceAs (Decidable (_ ∧ _ ∧ _))

/-- Knowledge bases on which the codec round-trips. -/
def roundTripSafe (kb : KnowledgeBase) : Prop :=
  wellFormedTitle kb.title ∧ ∀ f ∈ kb.facts, wellFormedFact f

instance (kb : KnowledgeBase) : Decidable (roundTripSafe kb) :=
  inferInstanceAs (Decidable (_ ∧ _))

/-- A line the table loop skips without logging: header/separator marker,
failed delimiter test, or fewer than three interior fields. -/
def silentSkip (l : Str) : Prop :=
  lineMarker (stripWs l) = true ∨ rowShaped (stripWs l) = false
    ∨ (lineMarker (stripWs l) = false ∧ rowShaped (stripWs l) = true
        ∧ (rowParts (stripWs l)).length < 3)

instance (l : Str) : Decidable (silentSkip l) :=
  inferInstanceAs (Decidable (_ ∨ _ ∨ _))

/-- A line the table loop skips with one `logger.warning`: row-shaped with
at least three fields whose number field fails `int(...)`. -/
def warnSkip (l : Str) : Prop :=
  lineMarker (stripWs l) = false ∧ rowShaped (stripWs l) = true
    ∧ 3 ≤ (rowParts (stripWs l)).length ∧ rowNumVal (stripWs l) = none

instance (l : Str) : Decidable (warnSkip l) :=
  inferInstanceAs (Decidable (_ ∧ _ ∧ _ ∧ _))

/-- A malformed candidate row: one the table loop does not turn into a
fact (bad number field, wrong field count, or missing delimiters). -/
def malformedRow (l : Str) : Prop := silentSkip l ∨ warnSkip l

instance (l : Str) : Decidable (malformedRow l) :=
  inferInstanceAs (Decidable (_ ∨ _))

/-- Sample request used to exhibit orchestrator behaviour at a concrete
input. -/
def cexRequest : ProcessingRequest :=
  ⟨⟨"Coverage is now 65%".toList, none, some ("#atlas-updates".toList),
      some ("project-manager".toList)⟩,
    ⟨"T".toList, [⟨1, "Coverage is 60%".toList, "2025-01-01".toList⟩]⟩,
    []⟩

/-- Table text whose only flaw is a row with too few fields: the parser
skips it without any diagnostic. -/
def fieldCountCounterText : Str :=
  ("| **#** | **Fact** | **Time Last Validated** |\n| ----- | -------- | ----------------------- |\n| **1** | Coverage is 60% | 2025-01-01 |\n| **9** |").toList

/-- Table text whose fact row is pipe-delimited with three fields and an
integer number field, but without the bold markup on the number. -/
def unboldedRowText : Str :=
  ("| **#** | **Fact** | **Time Last Validated** |\n| ----- | -------- | ----------------------- |\n| 3 | some fact | 2025-01-01 |").toList

/-- A local snapshot content different from the built-in default. -/
def snapshotFacts : List Fact :=
  [⟨1, "Local snapshot fact".toList, "2025-02-02".toList⟩]

/-- A knowledge base meeting the original claim's conditions (non-empty
description, no `|`, no newline) whose description carries leading
whitespace. -/
def c2BadKB : KnowledgeBase :=
  ⟨"T".toList, [⟨1, (" x").toList, "2025-01-01".toList⟩]⟩

/-- A small well-formed knowledge base used as a concrete round-trip
witness. -/
def c2GoodKB : KnowledgeBase :=
  ⟨"Team Facts".toList,
    [⟨3, "Coverage is 65%".toList, "2025-01-15".toList⟩,
     ⟨-2, "Negative numbered fact".toList, "2024-12-31".toList⟩]⟩

/-- Sample well-formed facts for tolerance witnesses. -/
def sampleFact1 : Fact := ⟨1, "Coverage is 60%".toList, "2025-01-01".toList⟩

/-- Second sample well-formed fact. -/
def sampleFact2 : Fact := ⟨2, "ARR is 8.7M USD".toList, "2025-01-15".toList⟩

/-! Lemmas about the string primitives -/

theorem strStarts_append_self (p s : Str) : strStarts (p ++ s) p = true := by
  induction p with
  | nil => cases s <;> rfl
  | cons c cs ih => simp [strStarts, ih]

theorem strEnds_append_self (b e : Str) : strEnds (b ++ e) e = true := by
  unfold strEnds
  rw [List.reverse_append]
  exact strStarts_append_self _ _

theorem strStarts_head_false {c d : Char} {s p : Str} (h : (c == d) = false) :
    strStarts (c :: s) (d :: p) = false := by
  simp [strStarts]
  intro he
  rw [he] at h
  simp at h

theorem dropWhile_eq_self_of_head {α : Type} {p : α → Bool} {l : List α}
    (h : ∀ c, l.head? = some c → p c = false) : l.dropWhile p = l := by
  cases l with
  | nil => rfl
  | cons x xs => simp [List.dropWhile, h x rfl]

theorem dropWhile_append_all {α : Type} {p : α → Bool} {a b : List α}
    (h : ∀ c ∈ a, p c = true) : (a ++ b).dropWhile p = b.dropWhile p := by
  induction a with
  | nil => rfl
  | cons x xs ih =>
      simp only [List.cons_append, List.dropWhile, h x (by simp)]
      exact ih (fun c hc => h c (by simp [hc]))

theorem dropWhile_append_left {α : Type} {p : α → Bool} {a b : List α}
    (h : a.dropWhile p ≠ []) : (a ++ b).dropWhile p = a.dropWhile p ++ b := by
  induction a with
  | nil => simp [List.dropWhile] at h
  | cons x xs ih =>
      by_cases hx : p x = true
      · simp only [List.cons_append, List.dropWhile, hx]
        simp only [List.dropWhile, hx] at h
        exact ih h
      · simp only [Bool.not_eq_true] at hx
        simp [List.dropWhile, hx]

theorem stripBy_cons_pos {p : Char → Bool} {c : Char} (s : Str) (h : p c = true) :
    stripBy p (c :: s) = stripBy p s := by
  simp [stripBy, List.dropWhile, h]

theorem stripBy_append_pos {p : Char → Bool} {c : Char} (s : Str) (h : p c = true) :
    stripBy p (s ++ [c]) = stripBy p s := by
  unfold stripBy
  by_cases he : s.dropWhile p = []
  · have hall : ∀ x ∈ s, p x = true := (List.dropWhile_eq_nil_iff).1 he
    have hnil : (s ++ [c]).dropWhile p = [] := by
      rw [List.dropWhile_eq_nil_iff]
      intro x hx
      rcases List.mem_append.1 hx with hx | hx
      · exact hall x hx
      · simp at hx; subst hx; exact h
    simp [hnil, he]
  · rw [dropWhile_append_left he, List.reverse_append]
    simp [List.dropWhile, h]

theorem stripBy_eq_self {p : Char → Bool} {s : Str}
    (h1 : ∀ c, s.head? = some c → p c = false)
    (h2 : ∀ c, s.getLast? = some c → p c = false) : stripBy p s = s := by
  cases s with
  | nil => rfl
  | cons x xs =>
      have hd : (x :: xs).dropWhile p = x :: xs := dropWhile_eq_self_of_head h1
      have hr : (x :: xs).reverse.dropWhile p = (x :: xs).reverse := by
        apply dropWhile_eq_self_of_head
        intro c hc
        rw [List.head?_reverse] at hc
        exact h2 c hc
      unfold stripBy
      rw [hd, hr, List.reverse_reverse]

theorem stripBy_head_cons {p : Char → Bool} {x : Char} (s : Str) (h : p x = false) :
    ∃ t, stripBy p (x :: s) = x :: t := by
  have hd : (x :: s).dropWhile p = x :: s :=
    dropWhile_eq_self_of_head (by intro c hc; simp at hc; subst hc; exact h)
  unfold stripBy
  rw [hd]
  by_cases he : s.reverse.dropWhile p = []
  · refine ⟨[], ?_⟩
    have hx : (x :: s).reverse.dropWhile p = [x] := by
      rw [List.reverse_cons, dropWhile_append_all ((List.dropWhile_eq_nil_iff).1 he)]
      simp [List.dropWhile, h]
    rw [hx]; rfl
  · refine ⟨(s.reverse.dropWhile p).reverse, ?_⟩
    rw [List.reverse_cons, dropWhile_append_left he, List.reverse_append]
    rfl

theorem length_stripBy_le (p : Char → Bool) (s : Str) :
    (stripBy p s).length ≤ (s.dropWhile p).length := by
  unfold stripBy
  rw [List.length_reverse]
  calc ((s.dropWhile p).reverse.dropWhile p).length
      ≤ (s.dropWhile p).reverse.length := (List.dropWhile_suffix p).length_le
    _ = (s.dropWhile p).length := List.length_reverse _

theorem stripBy_self_head {p : Char → Bool} {s : Str} (h : stripBy p s = s) :
    ∀ c, s.head? = some c → p c = false := by
  intro c hc
  cases s with
  | nil => simp at hc
  | cons x xs =>
      have hxc : x = c := by simpa using hc
      subst hxc
      by_contra hp
      simp only [Bool.not_eq_false] at hp
      have h1 : (stripBy p (x :: xs)).length ≤ ((x :: xs).dropWhile p).length :=
        length_stripBy_le _ _
      have h2 : ((x :: xs).dropWhile p).length ≤ xs.length := by
        simp only [List.dropWhile, hp]
        exact (List.dropWhile_suffix p).length_le
      rw [h] at h1
      simp only [List.length_cons] at h1
      omega

theorem stripBy_self_getLast {p : Char → Bool} {s : Str} (h : stripBy p s = s) :
    ∀ c, s.getLast? = some c → p c = false := by
  intro c hc
  by_contra hp
  simp only [Bool.not_eq_false] at hp
  have hsuf : s.dropWhile p <:+ s := List.dropWhile_suffix p
  have hlen1 : (stripBy p s).length ≤ (s.dropWhile p).length := length_stripBy_le _ _
  have hlen2 : (s.dropWhile p).length ≤ s.length := hsuf.length_le
  rw [h] at hlen1
  have hdw : s.dropWhile p = s := hsuf.eq_of_length (le_antisymm hlen2 hlen1)
  have hrev : s.reverse.head? = some c := by rw [List.head?_reverse]; exact hc
  cases hs : s.reverse with
  | nil => rw [hs] at hrev; simp at hrev
  | cons y ys =>
      rw [hs] at hrev
      have hyc : y = c := by simpa using hrev
      subst hyc
      have hstr : stripBy p s = (ys.dropWhile p).reverse := by
        unfold stripBy
        rw [hdw, hs]
        simp [List.dropWhile, hp]
      have hlt : (stripBy p s).length ≤ ys.length := by
        rw [hstr, List.length_reverse]
        exact (List.dropWhile_suffix p).length_le
      rw [h] at hlt
      have hlens : s.length = ys.length + 1 := by
        have hc2 := congrArg List.length hs
        simpa using hc2
      omega

theorem splitCh_ne_nil (c : Char) (s : Str) : splitCh c s ≠ [] := by
  induction s with
  | nil => simp [splitCh]
  | cons x xs ih =>
      by_cases hx : (x == c) = true
      · simp [splitCh, hx]
      · simp only [Bool.not_eq_true] at hx
        simp only [splitCh, hx]
        cases h : splitCh c xs with
        | nil => exact absurd h ih
        | cons r rs => simp

theorem splitCh_cons_ne {c x : Char} {xs : Str} (hx : (x == c) = false) :
    splitCh c (x :: xs) =
      (x :: (splitCh c xs).headI) :: (splitCh c xs).tail := by
  simp only [splitCh, hx]
  cases h : splitCh c xs with
  | nil => exact absurd h (splitCh_ne_nil c xs)
  | cons r rs => simp [List.headI]

theorem splitCh_seg {c : Char} {seg rest : Str} (h : c ∉ seg) :
    splitCh c (seg ++ c :: rest) = seg :: splitCh c rest := by
  induction seg with
  | nil => simp [splitCh]
  | cons x xs ih =>
      have hx : (x == c) = false := by
        simp only [beq_eq_false_iff_ne, ne_eq]
        intro he; exact h (by simp [he])
      have ih' := ih (fun hm => h (by simp [hm]))
      rw [List.cons_append, splitCh_cons_ne hx, ih']
      simp [List.headI]

theorem splitCh_no_sep {c : Char} {s : Str} (h : c ∉ s) : splitCh c s = [s] := by
  induction s with
  | nil => rfl
  | cons x xs ih =>
      have hx : (x == c) = false := by
        simp only [beq_eq_false_iff_ne, ne_eq]
        intro he; exact h (by simp [he])
      rw [splitCh_cons_ne hx, ih (fun hm => h (by simp [hm]))]
      simp [List.headI]

theorem joinSep_cons2 (c : Char) (a b : Str) (l : List Str) :
    joinSep c (a :: b :: l) = a ++ c :: joinSep c (b :: l) := rfl

theorem splitCh_join {c : Char} {rs : List Str} (h : ∀ r ∈ rs, c ∉ r)
    (hne : rs ≠ []) : splitCh c (joinSep c rs) = rs := by
  induction rs with
  | nil => exact absurd rfl hne
  | cons r rest ih =>
      cases rest with
      | nil => exact splitCh_no_sep (h r (by simp))
      | cons r2 rest2 =>
          rw [joinSep_cons2, splitCh_seg (h r (by simp))]
          rw [ih (fun x hx => h x (by simp [hx])) (by simp)]

/-! Lemmas about number rendering and parsing -/

/-- The characters Python `str` produces for a natural number. -/
def decDigits : Str := "0123456789".toList

theorem digitChar'_mem {d : Nat} (h : d < 10) : digitChar' d ∈ decDigits := by
  interval_cases d <;> decide

theorem decDigits_facts : ∀ c ∈ decDigits,
    c.isDigit = true ∧ c.isWhitespace = false ∧ (c == '-') = false
      ∧ (c == '+') = false ∧ c ≠ '|' ∧ c ≠ '\n' ∧ c ≠ '*' ∧ c ≠ '#' := by
  decide

theorem digitVal_digitChar' {d : Nat} (h : d < 10) : digitVal (digitChar' d) = d := by
  interval_cases d <;> decide

theorem natCharsAux_fuel (n : Nat) : ∀ f1 f2, n < f1 → n < f2 →
    natCharsAux f1 n = natCharsAux f2 n := by
  induction n using Nat.strong_induction_on with
  | _ n ih =>
      intro f1 f2 h1 h2
      cases f1 with
      | zero => omega
      | succ a =>
          cases f2 with
          | zero => omega
          | succ b =>
              by_cases h10 : n < 10
              · simp [natCharsAux, h10]
              · simp only [natCharsAux, h10, if_false]
                have hlt : n / 10 < n := Nat.div_lt_self (by omega) (by omega)
                rw [ih (n / 10) hlt a b (by omega) (by omega)]

theorem natChars_expand (n : Nat) : natChars n =
    if n < 10 then [digitChar' n]
    else natChars (n / 10) ++ [digitChar' (n % 10)] := by
  by_cases h10 : n < 10
  · simp [natChars, natCharsAux, h10]
  · have hlt : n / 10 < n := Nat.div_lt_self (by omega) (by omega)
    have h1 : natChars n = natCharsAux n (n / 10) ++ [digitChar' (n % 10)] := by
      show natCharsAux (n + 1) n = _
      rw [show natCharsAux (n + 1) n = if n < 10 then [digitChar' n]
        else natCharsAux n (n / 10) ++ [digitChar' (n % 10)] from rfl, if_neg h10]
    rw [if_neg h10, h1, natCharsAux_fuel (n / 10) n (n / 10 + 1) hlt (by omega)]
    rfl

theorem natChars_mem (n : Nat) : ∀ c ∈ natChars n, c ∈ decDigits := by
  induction n using Nat.strong_induction_on with
  | _ n ih =>
      intro c hc
      rw [natChars_expand] at hc
      by_cases h10 : n < 10
      · rw [if_pos h10] at hc
        simp at hc
        subst hc
        exact digitChar'_mem h10
      · rw [if_neg h10] at hc
        rcases List.mem_append.1 hc with hc | hc
        · exact ih (n / 10) (Nat.div_lt_self (by omega) (by omega)) c hc
        · simp at hc
          subst hc
          exact digitChar'_mem (Nat.mod_lt _ (by omega))

theorem natChars_ne_nil (n : Nat) : natChars n ≠ [] := by
  rw [natChars_expand]
  by_cases h10 : n < 10 <;> simp [h10]

theorem natChars_foldl (n : Nat) :
    (natChars n).foldl (fun a c => 10 * a + digitVal c) 0 = n := by
  induction n using Nat.strong_induction_on with
  | _ n ih =>
      rw [natChars_expand]
      by_cases h10 : n < 10
      · simp [h10, List.foldl, digitVal_digitChar' h10]
      · rw [if_neg h10, List.foldl_append]
        simp only [List.foldl]
        rw [ih (n / 10) (Nat.div_lt_self (by omega) (by omega))]
        rw [digitVal_digitChar' (Nat.mod_lt _ (by omega))]
        omega

theorem parseNatPy_natChars (n : Nat) : parseNatPy (natChars n) = some n := by
  unfold parseNatPy
  have hall : (natChars n).all (fun c => c.isDigit) = true := by
    rw [List.all_eq_true]
    intro c hc
    exact (decDigits_facts c (natChars_mem n c hc)).1
  simp [natChars_ne_nil n, hall, natChars_foldl n]

theorem natChars_not_ws (n : Nat) : ∀ c ∈ natChars n, c.isWhitespace = false :=
  fun c hc => (decDigits_facts c (natChars_mem n c hc)).2.1

theorem stripWs_natChars (n : Nat) : stripWs (natChars n) = natChars n := by
  apply stripBy_eq_self
  · intro c hc
    exact natChars_not_ws n c (List.mem_of_mem_head? hc)
  · intro c hc
    exact natChars_not_ws n c (List.mem_of_mem_getLast? hc)

theorem natChars_head_not {n : Nat} {d : Char}
    (hd : (d == '-') = true ∨ (d == '+') = true) :
    strStarts (natChars n) [d] = false := by
  cases h : natChars n with
  | nil => exact absurd h (natChars_ne_nil n)
  | cons x xs =>
      have hx : x ∈ decDigits := natChars_mem n x (by rw [h]; simp)
      apply strStarts_head_false
      rcases hd with hd | hd <;> rw [eq_of_beq hd]
      · exact (decDigits_facts x hx).2.2.1
      · exact (decDigits_facts x hx).2.2.2.1

theorem getLast?_cons_ne {x : Char} {l : Str} (h : l ≠ []) :
    (x :: l).getLast? = l.getLast? := by
  cases l with
  | nil => exact absurd rfl h
  | cons a t => rfl

theorem parseIntPy_intChars (k : Int) : parseIntPy (intChars k) = some k := by
  cases k with
  | ofNat n =>
      show parseIntPy (natChars n) = some (Int.ofNat n)
      unfold parseIntPy
      rw [stripWs_natChars]
      rw [natChars_head_not (Or.inl (by decide)), natChars_head_not (Or.inr (by decide))]
      simp [parseNatPy_natChars n]
  | negSucc m =>
      show parseIntPy ('-' :: natChars (m + 1)) = some (Int.negSucc m)
      have hstrip : stripWs ('-' :: natChars (m + 1)) = '-' :: natChars (m + 1) := by
        apply stripBy_eq_self
        · intro c hc
          have hxc : '-' = c := by simpa using hc
          subst hxc
          decide
        · intro c hc
          rw [getLast?_cons_ne (natChars_ne_nil (m + 1))] at hc
          exact natChars_not_ws (m + 1) c (List.mem_of_mem_getLast? hc)
      unfold parseIntPy
      rw [hstrip]
      have hs : strStarts ('-' :: natChars (m + 1)) ['-'] = true := by
        simp [strStarts]
      rw [if_pos hs]
      simp only [List.drop_one, List.tail_cons]
      rw [parseNatPy_natChars (m + 1)]
      simp [Int.negSucc_eq]

theorem intChars_mem (k : Int) : ∀ c ∈ intChars k, c = '-' ∨ c ∈ decDigits := by
  intro c hc
  cases k with
  | ofNat n => exact Or.inr (natChars_mem n c hc)
  | negSucc m =>
      simp only [intChars] at hc
      rcases List.mem_cons.1 hc with hc | hc
      · exact Or.inl hc
      · exact Or.inr (natChars_mem (m + 1) c hc)

theorem intChars_ne_nil (k : Int) : intChars k ≠ [] := by
  cases k with
  | ofNat n => exact natChars_ne_nil n
  | negSucc m => simp [intChars]

theorem intChars_no_pipe (k : Int) : '|' ∉ intChars k := by
  intro hm
  rcases intChars_mem k '|' hm with h | h
  · simp at h
  · exact absurd h (by decide)

theorem intChars_no_newline (k : Int) : '\n' ∉ intChars k := by
  intro hm
  rcases intChars_mem k '\n' hm with h | h
  · simp at h
  · exact absurd h (by decide)

theorem intChars_no_star (k : Int) : '*' ∉ intChars k := by
  intro hm
  rcases intChars_mem k '*' hm with h | h
  · simp at h
  · exact absurd h (by decide)

theorem intChars_not_ws {k : Int} : ∀ c ∈ intChars k, c.isWhitespace = false := by
  intro c hc
  rcases intChars_mem k c hc with h | h
  · subst h; decide
  · exact (decDigits_facts c h).2.1

theorem stripWs_intChars (k : Int) : stripWs (intChars k) = intChars k := by
  apply stripBy_eq_self
  · intro c hc
    exact intChars_not_ws c (List.mem_of_mem_head? hc)
  · intro c hc
    exact intChars_not_ws c (List.mem_of_mem_getLast? hc)

theorem intChars_head_ne_hash (k : Int) :
    ∃ c t, intChars k = c :: t ∧ (c == '#') = false := by
  cases h : intChars k with
  | nil => exact absurd h (intChars_ne_nil k)
  | cons x xs =>
      refine ⟨x, xs, rfl, ?_⟩
      have hx := intChars_mem k x (by rw [h]; simp)
      rcases hx with hx | hx
      · subst hx; decide
      · simpa using (decDigits_facts x hx).2.2.2.2.2.2.2

/-! Lemmas about `pyReplace` -/

theorem pyReplaceAux_nil (pat rep : Str) : ∀ f, pyReplaceAux pat rep f [] = [] := by
  intro f
  cases f <;> rfl

theorem pyReplaceAux_bold {m : Str} (h : '*' ∉ m) :
    ∀ fuel, m.length + 2 ≤ fuel →
      pyReplaceAux boldMark [] fuel (m ++ boldMark) = m := by
  induction m with
  | nil =>
      intro fuel hf
      cases fuel with
      | zero => omega
      | succ f =>
          show pyReplaceAux boldMark [] (f + 1) ('*' :: ['*']) = []
          have hguard : strStarts ('*' :: ['*']) boldMark = true := by decide
          simp only [pyReplaceAux, hguard, if_true]
          have hdrop : List.drop (List.length boldMark) (['*', '*'] : Str) = [] := by
            decide
          rw [hdrop, pyReplaceAux_nil]
          rfl
  | cons x xs ih =>
      intro fuel hf
      cases fuel with
      | zero => simp at hf
      | succ f =>
          have hx : x ≠ '*' := fun he => h (by simp [he])
          have hguard : strStarts (x :: (xs ++ boldMark)) boldMark = false := by
            show strStarts (x :: (xs ++ boldMark)) ('*' :: ['*']) = false
            exact strStarts_head_false (by simpa using hx)
          show pyReplaceAux boldMark [] (f + 1) (x :: (xs ++ boldMark)) = x :: xs
          simp only [pyReplaceAux, hguard, if_false, Bool.false_eq_true]
          rw [ih (fun hm => h (by simp [hm])) f (by simpa using hf)]

theorem pyReplace_bold {m : Str} (h : '*' ∉ m) :
    pyReplace (boldMark ++ m ++ boldMark) boldMark [] = m := by
  unfold pyReplace
  have hlen : (boldMark ++ m ++ boldMark).length = m.length + 4 := by
    simp [boldMark]
  rw [hlen]
  show pyReplaceAux boldMark [] (m.length + 4) ('*' :: '*' :: (m ++ boldMark)) = m
  have hguard : strStarts ('*' :: '*' :: (m ++ boldMark)) boldMark = true := by
    show strStarts (('*' :: '*' :: []) ++ (m ++ boldMark)) boldMark = true
    exact strStarts_append_self _ _
  simp only [pyReplaceAux, hguard, if_true]
  have hdrop : List.drop boldMark.length ('*' :: '*' :: (m ++ boldMark))
      = m ++ boldMark := by
    simp [boldMark]
  rw [hdrop]
  rw [pyReplaceAux_bold h (m.length + 3) (by omega)]
  rfl

/-! Lemmas about the parser state machine -/

theorem strStarts_ne_head {s p : Str} {x y : Char} (hs : s.head? = some x)
    (hp : p.head? = some y) (hxy : (x == y) = false) : strStarts s p = false := by
  cases s with
  | nil => simp at hs
  | cons a as =>
      cases p with
      | nil => simp at hp
      | cons b bs =>
          have hax : a = x := by simpa using hs
          have hby : b = y := by simpa using hp
          subst hax; subst hby
          exact strStarts_head_false hxy

theorem lineMarker_of_head {l : Str} {x : Char} (hx : l.head? = some x)
    (hne : (x == '|') = false) : lineMarker l = false := by
  unfold lineMarker
  rw [strStarts_ne_head hx (by rfl) hne, strStarts_ne_head hx (by rfl) hne]
  rfl

theorem parseLine_marker {st : PState} {l : Str}
    (h : lineMarker (stripWs l) = true) :
    parseLine st l = { st with in_table := true } := by
  unfold parseLine
  simp only [h, if_true]

theorem parseLine_out {st : PState} (hin : st.in_table = false) {l : Str}
    (hm : lineMarker (stripWs l) = false) : parseLine st l = st := by
  unfold parseLine
  simp only [hm, hin, Bool.false_and, if_false, Bool.false_eq_true]

theorem foldl_parseLine_out {lines : List Str} {fs : List Fact} {w : Nat}
    (h : ∀ l ∈ lines, lineMarker (stripWs l) = false) :
    lines.foldl parseLine ⟨false, fs, w⟩ = ⟨false, fs, w⟩ := by
  induction lines with
  | nil => rfl
  | cons l ls ih =>
      rw [List.foldl_cons, parseLine_out rfl (h l (by simp))]
      exact ih (fun x hx => h x (by simp [hx]))

theorem findTitle_default {lines : List Str}
    (h : ∀ l ∈ lines, (strStarts l ("#".toList) && !strStarts l ("##".toList)) = false) :
    findTitle lines = defaultTitle := by
  induction lines with
  | nil => rfl
  | cons l ls ih =>
      unfold findTitle
      rw [h l (by simp)]
      simp only [if_false, Bool.false_eq_true]
      exact ih (fun x hx => h x (by simp [hx]))

theorem strStarts_cons (c p : Char) (cs ps : Str) :
    strStarts (c :: cs) (p :: ps) = ((c == p) && strStarts cs ps) := rfl

theorem splitCh_cons_sep (c : Char) (s : Str) :
    splitCh c (c :: s) = [] :: splitCh c s := by
  simp [splitCh]

/-- Structure of an emitted fact row as an explicit pipe-delimited shape. -/
theorem to_table_row_shape (f : Fact) :
    f.to_table_row =
      '|' :: ((' ' :: '*' :: '*' :: (intChars f.number ++ ['*', '*', ' ']))
        ++ '|' :: ((' ' :: (f.description ++ [' ']))
        ++ '|' :: ((' ' :: (f.last_validated ++ [' '])) ++ ['|']))) := by
  have e1 : "| **".toList = ['|', ' ', '*', '*'] := rfl
  have e2 : "** | ".toList = ['*', '*', ' ', '|', ' '] := rfl
  have e3 : " | ".toList = [' ', '|', ' '] := rfl
  have e4 : " |".toList = [' ', '|'] := rfl
  simp [Fact.to_table_row, e1, e2, e3, e4]

theorem to_table_row_strip (f : Fact) :
    stripWs f.to_table_row = f.to_table_row := by
  apply stripBy_eq_self
  · intro c hc
    rw [to_table_row_shape] at hc
    have hcp : c = '|' := by simpa using hc.symm
    subst hcp
    decide
  · intro c hc
    have hshape2 : f.to_table_row =
        ('|' :: ((' ' :: '*' :: '*' :: (intChars f.number ++ ['*', '*', ' ']))
          ++ '|' :: ((' ' :: (f.description ++ [' ']))
          ++ '|' :: (' ' :: (f.last_validated ++ [' '])))))
          ++ ['|'] := by
      rw [to_table_row_shape]
      simp
    rw [hshape2, List.getLast?_concat] at hc
    have hcp : c = '|' := by simpa using hc.symm
    subst hcp
    decide

theorem strStarts_hdrMark_false {c : Char} (hc : (c == '#') = false) (rest : Str) :
    strStarts ('|' :: ' ' :: '*' :: '*' :: c :: rest) hdrMark = false := by
  show strStarts _ ('|' :: ' ' :: '*' :: '*' :: '#' :: '*' :: '*' :: []) = false
  rw [strStarts_cons, strStarts_cons, strStarts_cons, strStarts_cons, strStarts_cons]
  simp [hc]

theorem strStarts_sepMark_false (rest : Str) :
    strStarts ('|' :: ' ' :: '*' :: rest) sepMark = false := by
  show strStarts _ ('|' :: ' ' :: '-' :: '-' :: '-' :: '-' :: '-' :: []) = false
  rw [strStarts_cons, strStarts_cons, strStarts_cons]
  have hne : ('*' == '-') = false := by decide
  simp [hne]

theorem to_table_row_cons_form (f : Fact) :
    ∃ c rest, (c == '#') = false
      ∧ f.to_table_row = '|' :: ' ' :: '*' :: '*' :: c :: rest := by
  obtain ⟨c, t, hct, hcne⟩ := intChars_head_ne_hash f.number
  refine ⟨c, t ++ ['*', '*', ' ']
    ++ '|' :: ((' ' :: (f.description ++ [' ']))
    ++ '|' :: ((' ' :: (f.last_validated ++ [' '])) ++ ['|'])), hcne, ?_⟩
  rw [to_table_row_shape, hct]
  simp

theorem to_table_row_not_marker (f : Fact) :
    lineMarker f.to_table_row = false := by
  obtain ⟨c, rest, hcne, hform⟩ := to_table_row_cons_form f
  unfold lineMarker
  rw [hform, strStarts_hdrMark_false hcne, strStarts_sepMark_false]
  rfl

theorem to_table_row_row_shaped (f : Fact) :
    rowShaped f.to_table_row = true := by
  unfold rowShaped
  have h1 : strStarts f.to_table_row rowMark = true := by
    have hshape : f.to_table_row = rowMark ++ (intChars f.number ++ "** | ".toList
        ++ f.description ++ " | ".toList ++ f.last_validated ++ " |".toList) := by
      unfold Fact.to_table_row rowMark
      simp
    rw [hshape]
    exact strStarts_append_self _ _
  have h2 : strEnds f.to_table_row rowEnd = true := by
    have hshape : f.to_table_row = ("| **".toList ++ intChars f.number
        ++ "** | ".toList ++ f.description ++ " | ".toList ++ f.last_validated)
        ++ rowEnd := by
      unfold Fact.to_table_row rowEnd
      simp
    rw [hshape]
    exact strEnds_append_self _ _
  rw [h1, h2]
  rfl

theorem pipe_not_mem_seg1 (k : Int) :
    '|' ∉ ' ' :: '*' :: '*' :: (intChars k ++ ['*', '*', ' ']) := by
  intro hm
  rcases List.mem_cons.1 hm with hm | hm
  · exact absurd hm (by decide)
  rcases List.mem_cons.1 hm with hm | hm
  · exact absurd hm (by decide)
  rcases List.mem_cons.1 hm with hm | hm
  · exact absurd hm (by decide)
  rcases List.mem_append.1 hm with hm | hm
  · exact intChars_no_pipe k hm
  · exact absurd hm (by decide)

theorem pipe_not_mem_pad {s : Str} (h : '|' ∉ s) : '|' ∉ ' ' :: (s ++ [' ']) := by
  intro hm
  rcases List.mem_cons.1 hm with hm | hm
  · exact absurd hm (by decide)
  rcases List.mem_append.1 hm with hm | hm
  · exact h hm
  · exact absurd hm (by decide)

theorem to_table_row_split (f : Fact)
    (hd2 : '|' ∉ f.description) (hl2 : '|' ∉ f.last_validated) :
    splitCh '|' f.to_table_row =
      [[], ' ' :: '*' :: '*' :: (intChars f.number ++ ['*', '*', ' ']),
        ' ' :: (f.description ++ [' ']), ' ' :: (f.last_validated ++ [' ']), []] := by
  rw [to_table_row_shape, splitCh_cons_sep, splitCh_seg (pipe_not_mem_seg1 f.number),
    splitCh_seg (pipe_not_mem_pad hd2)]
  have hlast : (' ' :: (f.last_validated ++ [' '])) ++ ['|']
      = (' ' :: (f.last_validated ++ [' '])) ++ '|' :: [] := rfl
  rw [hlast, splitCh_seg (pipe_not_mem_pad hl2)]
  rfl

theorem stripWs_pad {s : Str} (h : stripWs s = s) :
    stripWs (' ' :: (s ++ [' '])) = s := by
  unfold stripWs at h ⊢
  rw [stripBy_cons_pos _ (by decide), stripBy_append_pos _ (by decide), h]

theorem seg1_strip (k : Int) :
    stripWs (' ' :: '*' :: '*' :: (intChars k ++ ['*', '*', ' ']))
      = '*' :: '*' :: (intChars k ++ ['*', '*']) := by
  have hrw : (' ' :: '*' :: '*' :: (intChars k ++ ['*', '*', ' ']))
      = ' ' :: (('*' :: '*' :: (intChars k ++ ['*', '*'])) ++ [' ']) := by
    simp
  rw [hrw, stripWs_pad]
  apply stripBy_eq_self
  · intro c hc
    have hcp : c = '*' := by simpa using hc.symm
    subst hcp
    decide
  · intro c hc
    have hsh : ('*' :: '*' :: (intChars k ++ ['*', '*']))
        = ('*' :: '*' :: (intChars k ++ ['*'])) ++ ['*'] := by simp
    rw [hsh, List.getLast?_concat] at hc
    have hcp : c = '*' := by simpa using hc.symm
    subst hcp
    decide

theorem seg1_number (k : Int) :
    parseIntPy (stripWs (pyReplace ('*' :: '*' :: (intChars k ++ ['*', '*']))
      boldMark [])) = some k := by
  have hsh : ('*' :: '*' :: (intChars k ++ ['*', '*']))
      = boldMark ++ intChars k ++ boldMark := by
    unfold boldMark
    simp
  rw [hsh, pyReplace_bold (intChars_no_star k), stripWs_intChars]
  exact parseIntPy_intChars k

/-- The central row lemma: once in the table, an emitted row of a
well-formed fact is parsed back to exactly that fact. -/
theorem parseLine_row {f : Fact}
    (hd1 : stripWs f.description = f.description) (hd2 : '|' ∉ f.description)
    (hl1 : stripWs f.last_validated = f.last_validated)
    (hl2 : '|' ∉ f.last_validated) (fs : List Fact) (w : Nat) :
    parseLine ⟨true, fs, w⟩ f.to_table_row = ⟨true, fs ++ [f], w⟩ := by
  have hstrip := to_table_row_strip f
  have hmark : lineMarker (stripWs f.to_table_row) = false := by
    rw [hstrip]
    exact to_table_row_not_marker f
  have hparts : rowParts (stripWs f.to_table_row) =
      ['*' :: '*' :: (intChars f.number ++ ['*', '*']),
        f.description, f.last_validated] := by
    rw [hstrip]
    unfold rowParts
    rw [to_table_row_split f hd2 hl2]
    simp only [List.drop, List.dropLast, List.map]
    rw [seg1_strip, stripWs_pad hd1, stripWs_pad hl1]
  unfold parseLine
  simp only [hmark, if_false, Bool.false_eq_true]
  rw [hstrip, to_table_row_row_shaped]
  simp only [Bool.and_true, if_true]
  rw [← hstrip, hparts]
  simp only []
  rw [seg1_number]
  simp only [hd1, hl1]

theorem foldl_parseLine_rows {facts : List Fact}
    (h : ∀ f ∈ facts, stripWs f.description = f.description ∧ '|' ∉ f.description
      ∧ stripWs f.last_validated = f.last_validated ∧ '|' ∉ f.last_validated)
    (fs : List Fact) (w : Nat) :
    (facts.map Fact.to_table_row).foldl parseLine ⟨true, fs, w⟩
      = ⟨true, fs ++ facts, w⟩ := by
  induction facts generalizing fs with
  | nil => simp
  | cons f rest ih =>
      obtain ⟨h1, h2, h3, h4⟩ := h f (by simp)
      rw [List.map_cons, List.foldl_cons, parseLine_row h1 h2 h3 h4]
      rw [ih (fun x hx => h x (by simp [hx])) (fs ++ [f])]
      simp

/-! Lemmas about the full markdown document -/

theorem strStarts_any_nil (s : Str) : strStarts s [] = true := by
  cases s <;> rfl

theorem to_table_row_ends_pipe (f : Fact) : ∃ ini, f.to_table_row = ini ++ ['|'] := by
  refine ⟨'|' :: ((' ' :: '*' :: '*' :: (intChars f.number ++ ['*', '*', ' ']))
    ++ '|' :: ((' ' :: (f.description ++ [' ']))
    ++ '|' :: (' ' :: (f.last_validated ++ [' '])))), ?_⟩
  rw [to_table_row_shape]
  simp

theorem to_table_row_no_newline (f : Fact) (h1 : '\n' ∉ f.description)
    (h2 : '\n' ∉ f.last_validated) : '\n' ∉ f.to_table_row := by
  rw [to_table_row_shape]
  intro hm
  rcases List.mem_cons.1 hm with hm | hm
  · exact absurd hm (by decide)
  rcases List.mem_append.1 hm with hm | hm
  · rcases List.mem_cons.1 hm with hm | hm
    · exact absurd hm (by decide)
    rcases List.mem_cons.1 hm with hm | hm
    · exact absurd hm (by decide)
    rcases List.mem_cons.1 hm with hm | hm
    · exact absurd hm (by decide)
    rcases List.mem_append.1 hm with hm | hm
    · exact intChars_no_newline f.number hm
    · exact absurd hm (by decide)
  rcases List.mem_cons.1 hm with hm | hm
  · exact absurd hm (by decide)
  rcases List.mem_append.1 hm with hm | hm
  · rcases List.mem_cons.1 hm with hm | hm
    · exact absurd hm (by decide)
    rcases List.mem_append.1 hm with hm | hm
    · exact h1 hm
    · exact absurd hm (by decide)
  rcases List.mem_cons.1 hm with hm | hm
  · exact absurd hm (by decide)
  rcases List.mem_append.1 hm with hm | hm
  · rcases List.mem_cons.1 hm with hm | hm
    · exact absurd hm (by decide)
    rcases List.mem_append.1 hm with hm | hm
    · exact h2 hm
    · exact absurd hm (by decide)
  · exact absurd hm (by decide)

theorem joinSep_ends_pipe {c : Char} {rs : List Str}
    (h : ∀ r ∈ rs, ∃ ini, r = ini ++ ['|']) (hne : rs ≠ []) :
    ∃ ini, joinSep c rs = ini ++ ['|'] := by
  induction rs with
  | nil => exact absurd rfl hne
  | cons r rest ih =>
      cases rest with
      | nil => exact h r (by simp)
      | cons r2 rest2 =>
          obtain ⟨ini, hini⟩ := ih (fun x hx => h x (by simp [hx])) (by simp)
          refine ⟨r ++ c :: ini, ?_⟩
          rw [joinSep_cons2, hini]
          simp

/-- The markdown document written out as an explicit line structure. -/
theorem to_markdown_shape (kb : KnowledgeBase) :
    kb.to_markdown = ('#' :: ' ' :: kb.title) ++ '\n' :: (([] : Str)
      ++ '\n' :: (tableHeaderLine ++ '\n' :: (tableSeparatorLine
      ++ '\n' :: joinSep '\n' (kb.facts.map Fact.to_table_row)))) := by
  have e1 : "# ".toList = ['#', ' '] := rfl
  have e2 : "\n\n".toList = ['\n', '\n'] := rfl
  have e3 : "\n".toList = ['\n'] := rfl
  simp [KnowledgeBase.to_markdown, e1, e2, e3]

theorem stripWs_to_markdown (kb : KnowledgeBase) :
    stripWs kb.to_markdown =
      if kb.facts = [] then
        ('#' :: ' ' :: kb.title) ++ '\n' :: (([] : Str)
          ++ '\n' :: (tableHeaderLine ++ '\n' :: tableSeparatorLine))
      else kb.to_markdown := by
  by_cases hfe : kb.facts = []
  · rw [if_pos hfe, to_markdown_shape, hfe]
    show stripWs (('#' :: ' ' :: kb.title) ++ '\n' :: (([] : Str)
      ++ '\n' :: (tableHeaderLine ++ '\n' :: (tableSeparatorLine ++ ['\n'])))) = _
    have hrw : ('#' :: ' ' :: kb.title) ++ '\n' :: (([] : Str)
        ++ '\n' :: (tableHeaderLine ++ '\n' :: (tableSeparatorLine ++ ['\n'])))
        = (('#' :: ' ' :: kb.title) ++ '\n' :: (([] : Str)
          ++ '\n' :: (tableHeaderLine ++ '\n' :: tableSeparatorLine))) ++ ['\n'] := by
      simp
    rw [hrw]
    unfold stripWs
    rw [stripBy_append_pos _ (by decide)]
    apply stripBy_eq_self
    · intro c hc
      have hcp : c = '#' := by simpa using hc.symm
      subst hcp
      decide
    · intro c hc
      have hsepx : ∃ ini, tableSeparatorLine = ini ++ ['|'] :=
        ⟨tableSeparatorLine.dropLast, by decide⟩
      obtain ⟨ini, hini⟩ := hsepx
      have hrw2 : ('#' :: ' ' :: kb.title) ++ '\n' :: (([] : Str)
          ++ '\n' :: (tableHeaderLine ++ '\n' :: tableSeparatorLine))
          = (('#' :: ' ' :: kb.title) ++ '\n' :: (([] : Str)
            ++ '\n' :: (tableHeaderLine ++ '\n' :: ini))) ++ ['|'] := by
        rw [hini]
        simp
      rw [hrw2, List.getLast?_concat] at hc
      have hcp : c = '|' := by simpa using hc.symm
      subst hcp
      decide
  · rw [if_neg hfe, to_markdown_shape]
    have hrows : kb.facts.map Fact.to_table_row ≠ [] := by
      simp [hfe]
    obtain ⟨ini, hini⟩ := joinSep_ends_pipe (c := '\n')
      (fun r hr => by
        obtain ⟨f, _, hfr⟩ := List.mem_map.1 hr
        rw [← hfr]
        exact to_table_row_ends_pipe f) hrows
    apply stripBy_eq_self
    · intro c hc
      have hcp : c = '#' := by simpa using hc.symm
      subst hcp
      decide
    · intro c hc
      have hrw2 : ('#' :: ' ' :: kb.title) ++ '\n' :: (([] : Str)
          ++ '\n' :: (tableHeaderLine ++ '\n' :: (tableSeparatorLine
          ++ '\n' :: joinSep '\n' (kb.facts.map Fact.to_table_row))))
          = (('#' :: ' ' :: kb.title) ++ '\n' :: (([] : Str)
            ++ '\n' :: (tableHeaderLine ++ '\n' :: (tableSeparatorLine
            ++ '\n' :: ini)))) ++ ['|'] := by
        rw [hini]
        simp
      rw [hrw2, List.getLast?_concat] at hc
      have hcp : c = '|' := by simpa using hc.symm
      subst hcp
      decide

theorem to_markdown_lines (kb : KnowledgeBase) (ht : '\n' ∉ kb.title)
    (hf : ∀ f ∈ kb.facts, '\n' ∉ f.description ∧ '\n' ∉ f.last_validated) :
    splitCh '\n' (stripWs kb.to_markdown) =
      ('#' :: ' ' :: kb.title) :: ([] : Str) :: tableHeaderLine
        :: tableSeparatorLine
        :: (if kb.facts = [] then [] else kb.facts.map Fact.to_table_row) := by
  have htl : '\n' ∉ '#' :: ' ' :: kb.title := by
    intro hm
    rcases List.mem_cons.1 hm with hm | hm
    · exact absurd hm (by decide)
    rcases List.mem_cons.1 hm with hm | hm
    · exact absurd hm (by decide)
    · exact ht hm
  have hhdr : '\n' ∉ tableHeaderLine := by decide
  have hsep : '\n' ∉ tableSeparatorLine := by decide
  rw [stripWs_to_markdown]
  by_cases hfe : kb.facts = []
  · rw [if_pos hfe, if_pos hfe]
    rw [splitCh_seg htl]
    simp only [List.nil_append]
    rw [splitCh_cons_sep, splitCh_seg hhdr, splitCh_no_sep hsep]
  · rw [if_neg hfe, if_neg hfe, to_markdown_shape]
    rw [splitCh_seg htl]
    simp only [List.nil_append]
    rw [splitCh_cons_sep, splitCh_seg hhdr, splitCh_seg hsep]
    rw [splitCh_join (fun r hr => by
        obtain ⟨f, hfm, hfr⟩ := List.mem_map.1 hr
        rw [← hfr]
        exact to_table_row_no_newline f (hf f hfm).1 (hf f hfm).2)
      (by simp [hfe])]

theorem findTitle_heading {T : Str} (h1 : stripWs T = T)
    (h2 : stripCs ("# ".toList) T = T) (ls : List Str) :
    findTitle (('#' :: ' ' :: T) :: ls) = T := by
  unfold findTitle
  have hg1 : strStarts ('#' :: ' ' :: T) ("#".toList) = true := by
    show strStarts ('#' :: ' ' :: T) ('#' :: []) = true
    rw [strStarts_cons]
    rfl
  have hg2 : strStarts ('#' :: ' ' :: T) ("##".toList) = false := by
    show strStarts ('#' :: ' ' :: T) ('#' :: '#' :: []) = false
    rw [strStarts_cons, strStarts_cons, strStarts_any_nil]
    decide
  rw [hg1, hg2]
  simp only [Bool.not_false, Bool.and_true, if_true]
  unfold stripCs at h2 ⊢
  rw [stripBy_cons_pos _ (by decide), stripBy_cons_pos _ (by decide), h2, h1]

/-! Scanning the document through the fold -/

theorem parseLine_title_line {T : Str} (fs : List Fact) (w : Nat) :
    parseLine ⟨false, fs, w⟩ ('#' :: ' ' :: T) = ⟨false, fs, w⟩ := by
  obtain ⟨t, ht⟩ := stripBy_head_cons (' ' :: T)
    (p := fun c => c.isWhitespace) (x := '#') (by decide)
  apply parseLine_out rfl
  exact lineMarker_of_head (by rw [show stripWs ('#' :: ' ' :: T) = '#' :: t from ht]; rfl)
    (by decide)

theorem parseLine_empty_line {st : PState} (h : st.in_table = false) :
    parseLine st [] = st :=
  parseLine_out h (by decide)

theorem parseLine_header_line (st : PState) :
    parseLine st tableHeaderLine = { st with in_table := true } :=
  parseLine_marker (by decide)

theorem parseLine_separator_line (st : PState) :
    parseLine st tableSeparatorLine = { st with in_table := true } :=
  parseLine_marker (by decide)

/-- Parse of the emitted document: the fold recovers exactly the facts. -/
theorem parseScan_to_markdown (kb : KnowledgeBase)
    (hf : ∀ f ∈ kb.facts, wellFormedFact f) (ht : '\n' ∉ kb.title) :
    parseScan kb.to_markdown = ⟨true, kb.facts, 0⟩ := by
  unfold parseScan
  rw [to_markdown_lines kb ht
    (fun f hm => ⟨(hf f hm).2.1.2.2, (hf f hm).2.2.2.2⟩)]
  by_cases hfe : kb.facts = []
  · rw [if_pos hfe]
    simp only [List.foldl_cons, List.foldl_nil]
    rw [parseLine_title_line, parseLine_empty_line rfl, parseLine_header_line,
      parseLine_separator_line]
    simp [hfe]
  · rw [if_neg hfe]
    simp only [List.foldl_cons]
    rw [parseLine_title_line, parseLine_empty_line rfl, parseLine_header_line,
      parseLine_separator_line]
    show (kb.facts.map Fact.to_table_row).foldl parseLine ⟨true, [], 0⟩ = _
    rw [foldl_parseLine_rows
      (fun f hm => ⟨(hf f hm).2.1.1, (hf f hm).2.1.2.1,
        (hf f hm).2.2.1, (hf f hm).2.2.2.1⟩) [] 0]
    simp [hfe]

/-- Full round trip of the codec under the well-formedness conditions. -/
theorem parse_round_trip (kb : KnowledgeBase) (h : roundTripSafe kb) :
    parse_knowledge_base_response kb.to_markdown = kb := by
  obtain ⟨⟨ht1, ht2, ht3⟩, hf⟩ := h
  unfold parse_knowledge_base_response
  rw [to_markdown_lines kb ht3
    (fun f hm => ⟨(hf f hm).2.1.2.2, (hf f hm).2.2.2.2⟩)]
  rw [findTitle_heading ht1 ht2]
  rw [show (parseScan kb.to_markdown).facts = kb.facts from by
    rw [parseScan_to_markdown kb hf ht3]]

/-! Malformed-row handling -/

theorem parseLine_silentSkip {l : Str} (h : silentSkip l) (fs : List Fact)
    (w : Nat) : parseLine ⟨true, fs, w⟩ l = ⟨true, fs, w⟩ := by
  by_cases hm : lineMarker (stripWs l) = true
  · rw [parseLine_marker hm]
  · simp only [Bool.not_eq_true] at hm
    rcases h with h | h | ⟨_, hs, hlen⟩
    · exact absurd h (by simp [hm])
    · unfold parseLine
      simp only [hm, h, if_false, Bool.and_false, Bool.false_eq_true]
    · unfold parseLine
      simp only [hm, hs, if_false, Bool.and_true, if_true, Bool.false_eq_true,
        Bool.true_and]
      cases hp : rowParts (stripWs l) with
      | nil => rfl
      | cons p0 t1 =>
          cases t1 with
          | nil => rfl
          | cons p1 t2 =>
              cases t2 with
              | nil => rfl
              | cons p2 t3 =>
                  rw [hp] at hlen
                  simp at hlen
                  omega

theorem parseLine_warnSkip {l : Str} (h : warnSkip l) (fs : List Fact)
    (w : Nat) : parseLine ⟨true, fs, w⟩ l = ⟨true, fs, w + 1⟩ := by
  obtain ⟨hm, hs, hlen, hnum⟩ := h
  unfold parseLine
  simp only [hm, hs, if_false, Bool.and_true, if_true, Bool.false_eq_true,
    Bool.true_and]
  cases hp : rowParts (stripWs l) with
  | nil => rw [hp] at hlen; simp at hlen
  | cons p0 t1 =>
      cases t1 with
      | nil => rw [hp] at hlen; simp at hlen
      | cons p1 t2 =>
          cases t2 with
          | nil => rw [hp] at hlen; simp at hlen
          | cons p2 t3 =>
              unfold rowNumVal at hnum
              rw [hp] at hnum
              simp only at hnum
              simp only []
              rw [hnum]

theorem silentSkip_not_warn {l : Str} (h : silentSkip l) : ¬warnSkip l := by
  intro hw
  obtain ⟨hm, hs, hlen, _⟩ := hw
  rcases h with h | h | ⟨_, _, hlt⟩
  · rw [h] at hm; simp at hm
  · rw [h] at hs; simp at hs
  · omega

theorem getLast?_of_suffix {l2 l1 : List Char} (h : l2 <:+ l1) (hne : l2 ≠ []) :
    l1.getLast? = l2.getLast? := by
  obtain ⟨pre, rfl⟩ := h
  rcases List.eq_nil_or_concat l2 with h2 | ⟨i, x, h3⟩
  · exact absurd h2 hne
  · subst h3
    rw [List.concat_eq_append,
      show pre ++ (i ++ [x]) = (pre ++ i) ++ [x] from by simp,
      List.getLast?_concat, List.getLast?_concat]

theorem joinSep_concat_suffix (c : Char) (i : List Str) (l' : Str) :
    l' <:+ joinSep c (i ++ [l']) := by
  induction i with
  | nil => simp [joinSep]
  | cons a rest ih =>
      have hne : rest ++ [l'] ≠ [] := by simp
      cases hr : rest ++ [l'] with
      | nil => exact absurd hr hne
      | cons b bs =>
          rw [List.cons_append, hr, joinSep_cons2, ← hr]
          exact ih.trans ((List.suffix_cons c _).trans (List.suffix_append _ _))

theorem getLast?_joinSep {c : Char} {ls : List Str} {i : List Str} {ll : Str}
    (h : ls = i ++ [ll]) (hll : ll ≠ []) :
    (joinSep c ls).getLast? = ll.getLast? := by
  subst h
  exact getLast?_of_suffix (joinSep_concat_suffix c i ll) hll

/-- Tolerance core: one malformed line among well-formed rows is skipped,
with a warning if and only if the number field was the failing check. -/
theorem parse_tolerance_core (facts1 facts2 : List Fact) (bad : Str)
    (hwf : ∀ f ∈ facts1 ++ facts2, wellFormedFact f)
    (hmal : malformedRow bad) (hb1 : stripWs bad = bad) (hb2 : bad ≠ [])
    (hb3 : '\n' ∉ bad) :
    parseScan (joinSep '\n' (tableHeaderLine :: tableSeparatorLine
        :: (facts1.map Fact.to_table_row ++ bad :: facts2.map Fact.to_table_row)))
      = ⟨true, facts1 ++ facts2, if warnSkip bad then 1 else 0⟩ := by
  have hlines : ∀ l ∈ tableHeaderLine :: tableSeparatorLine
      :: (facts1.map Fact.to_table_row ++ bad :: facts2.map Fact.to_table_row),
      '\n' ∉ l := by
    intro l hl
    rcases List.mem_cons.1 hl with rfl | hl
    · decide
    rcases List.mem_cons.1 hl with rfl | hl
    · decide
    rcases List.mem_append.1 hl with hl | hl
    · obtain ⟨f, hfm, rfl⟩ := List.mem_map.1 hl
      have hwff := hwf f (List.mem_append.2 (Or.inl hfm))
      exact to_table_row_no_newline f hwff.2.1.2.2 hwff.2.2.2.2
    rcases List.mem_cons.1 hl with rfl | hl
    · exact hb3
    · obtain ⟨f, hfm, rfl⟩ := List.mem_map.1 hl
      have hwff := hwf f (List.mem_append.2 (Or.inr hfm))
      exact to_table_row_no_newline f hwff.2.1.2.2 hwff.2.2.2.2
  -- decompose the line list as (prefix ++ [last line]) with a good last line
  have hdecomp : ∃ i ll, tableHeaderLine :: tableSeparatorLine
      :: (facts1.map Fact.to_table_row ++ bad :: facts2.map Fact.to_table_row)
        = i ++ [ll] ∧ ll ≠ []
        ∧ (∀ x, ll.getLast? = some x → x.isWhitespace = false) := by
    rcases List.eq_nil_or_concat facts2 with hf2 | ⟨finit, flast, hf2⟩
    · refine ⟨tableHeaderLine :: tableSeparatorLine :: facts1.map Fact.to_table_row,
        bad, ?_, hb2, ?_⟩
      · rw [hf2]
        simp
      · intro x hx
        exact stripBy_self_getLast hb1 x hx
    · refine ⟨tableHeaderLine :: tableSeparatorLine
        :: (facts1.map Fact.to_table_row ++ bad :: finit.map Fact.to_table_row),
        flast.to_table_row, ?_, ?_, ?_⟩
      · rw [hf2]
        simp
      · obtain ⟨ini, hini⟩ := to_table_row_ends_pipe flast
        rw [hini]
        simp
      · intro x hx
        obtain ⟨ini, hini⟩ := to_table_row_ends_pipe flast
        rw [hini, List.getLast?_concat] at hx
        have hxp : x = '|' := by simpa using hx.symm
        subst hxp
        decide
  obtain ⟨i, ll, hsplit, hllne, hllws⟩ := hdecomp
  have hstrip : stripWs (joinSep '\n' (tableHeaderLine :: tableSeparatorLine
      :: (facts1.map Fact.to_table_row ++ bad :: facts2.map Fact.to_table_row)))
      = joinSep '\n' (tableHeaderLine :: tableSeparatorLine
        :: (facts1.map Fact.to_table_row ++ bad :: facts2.map Fact.to_table_row)) := by
    apply stripBy_eq_self
    · intro c hc
      rw [joinSep_cons2] at hc
      have hhd : (tableHeaderLine ++ '\n' :: joinSep '\n' (tableSeparatorLine
          :: (facts1.map Fact.to_table_row
            ++ bad :: facts2.map Fact.to_table_row))).head? = some '|' := rfl
      rw [hhd] at hc
      have hcp : c = '|' := by simpa using hc.symm
      subst hcp
      decide
    · intro c hc
      rw [getLast?_joinSep hsplit hllne] at hc
      exact hllws c hc
  unfold parseScan
  rw [hstrip]
  rw [splitCh_join hlines (by simp)]
  simp only [List.foldl_cons]
  rw [parseLine_header_line, parseLine_separator_line]
  show ((facts1.map Fact.to_table_row ++ bad :: facts2.map Fact.to_table_row).foldl
    parseLine ⟨true, [], 0⟩) = _
  rw [List.foldl_append]
  rw [foldl_parseLine_rows
    (fun f hm => by
      have hwff := hwf f (List.mem_append.2 (Or.inl hm))
      exact ⟨hwff.2.1.1, hwff.2.1.2.1, hwff.2.2.1, hwff.2.2.2.1⟩) [] 0]
  simp only [List.nil_append]
  rw [List.foldl_cons]
  by_cases hw : warnSkip bad
  · rw [parseLine_warnSkip hw]
    rw [foldl_parseLine_rows
      (fun f hm => by
        have hwff := hwf f (List.mem_append.2 (Or.inr hm))
        exact ⟨hwff.2.1.1, hwff.2.1.2.1, hwff.2.2.1, hwff.2.2.2.1⟩) facts1 (0 + 1)]
    rw [if_pos hw]
  · have hsil : silentSkip bad := by
      rcases hmal with h | h
      · exact h
      · exact absurd h hw
    rw [parseLine_silentSkip hsil]
    rw [foldl_parseLine_rows
      (fun f hm => by
        have hwff := hwf f (List.mem_append.2 (Or.inr hm))
        exact ⟨hwff.2.1.1, hwff.2.1.2.1, hwff.2.2.1, hwff.2.2.2.1⟩) facts1 0]
    rw [if_neg hw]

/-! Idempotence of strip and general row acceptance -/

theorem head?_dropWhile {α : Type} {p : α → Bool} {l : List α} :
    ∀ c, (l.dropWhile p).head? = some c → p c = false := by
  induction l with
  | nil => intro c hc; simp at hc
  | cons x xs ih =>
      intro c hc
      by_cases hx : p x = true
      · rw [List.dropWhile_cons, if_pos hx] at hc
        exact ih c hc
      · simp only [Bool.not_eq_true] at hx
        rw [List.dropWhile_cons, if_neg (by simp [hx])] at hc
        have hxc : x = c := by simpa using hc
        subst hxc
        exact hx

theorem stripBy_idem (p : Char → Bool) (s : Str) :
    stripBy p (stripBy p s) = stripBy p s := by
  by_cases hnil : stripBy p s = []
  · rw [hnil]; rfl
  · apply stripBy_eq_self
    · intro c hc
      have h1 : (stripBy p s).head?
          = ((s.dropWhile p).reverse.dropWhile p).getLast? := by
        unfold stripBy
        rw [List.head?_reverse]
      have hdw_ne : (s.dropWhile p).reverse.dropWhile p ≠ [] := by
        unfold stripBy at hnil
        simpa using hnil
      rw [h1, ← getLast?_of_suffix (List.dropWhile_suffix p) hdw_ne,
        List.getLast?_reverse] at hc
      exact head?_dropWhile c hc
    · intro c hc
      have h1 : (stripBy p s).getLast?
          = ((s.dropWhile p).reverse.dropWhile p).head? := by
        unfold stripBy
        rw [List.getLast?_reverse]
      rw [h1] at hc
      exact head?_dropWhile c hc

theorem rowParts_strip {l : Str} {x : Str} (h : x ∈ rowParts l) :
    stripWs x = x := by
  obtain ⟨y, _, hy⟩ := List.mem_map.1 h
  rw [← hy]
  exact stripBy_idem _ _

/-- General acceptance: while in the table, any line passing the marker,
delimiter, field-count and number checks is turned into a fact built from
its first three fields; the third field is passed through unchecked. -/
theorem parseLine_accepts {l : Str} {p0 p1 p2 : Str} {rest : List Str} {n : Int}
    (hm : lineMarker (stripWs l) = false) (hs : rowShaped (stripWs l) = true)
    (hp : rowParts (stripWs l) = p0 :: p1 :: p2 :: rest)
    (hn : parseIntPy (stripWs (pyReplace p0 boldMark [])) = some n)
    (fs : List Fact) (w : Nat) :
    parseLine ⟨true, fs, w⟩ l = ⟨true, fs ++ [⟨n, p1, p2⟩], w⟩ := by
  have hp1 : stripWs p1 = p1 := rowParts_strip (by rw [hp]; simp)
  have hp2 : stripWs p2 = p2 := rowParts_strip (by rw [hp]; simp)
  unfold parseLine
  simp only [hm, hs, if_false, Bool.and_true, if_true, Bool.false_eq_true,
    Bool.true_and]
  rw [hp]
  simp only []
  rw [hn, hp1, hp2]

/-! Claim theorems -/

/-- Claim C1, counterexample: the empty reply parses to zero fact rows,
yet the orchestrator returns `success := true` with the parsed empty
knowledge base instead of `success := false` with the original input. -/
theorem c1_empty_reply_counterexample :
    (parse_knowledge_base_response ([] : Str)).facts = []
    ∧ (process_custom_input cexRequest (some [])).success = true
    ∧ (process_custom_input cexRequest (some [])).updated_knowledge_base
        ≠ cexRequest.current_knowledge_base := by
  decide

/-- Claim C1 (amended): a reply that yields zero parsable fact rows still
commits — `process_custom_input` returns `success = true` and the parsed
(zero-fact) knowledge base; `success = false` with the original input
knowledge base occurs exactly when the oracle call itself fails. -/
theorem c1_empty_reply_commits (req : ProcessingRequest) (reply : Str)
    (h : (parse_knowledge_base_response reply).facts = []) :
    (process_custom_input req (some reply)).success = true
    ∧ (process_custom_input req (some reply)).updated_knowledge_base
        = parse_knowledge_base_response reply
    ∧ (process_custom_input req (some reply)).updated_knowledge_base.facts = []
    ∧ (process_custom_input req none).success = false
    ∧ (process_custom_input req none).updated_knowledge_base
        = req.current_knowledge_base :=
  ⟨rfl, rfl, h, rfl, rfl⟩

/-- Witness for `c1_empty_reply_commits` at the empty reply. -/
theorem c1_empty_reply_commits_witness :
    (parse_knowledge_base_response ([] : Str)).facts = []
    ∧ (process_custom_input cexRequest (some [])).success = true := by
  have h : (parse_knowledge_base_response ([] : Str)).facts = [] := by decide
  exact ⟨h, (c1_empty_reply_commits cexRequest [] h).1⟩

/-- Claim C2, counterexample: a knowledge base whose single description is
non-empty, `|`-free and newline-free, but carries leading whitespace; the
parser strips the field, so decode ∘ encode is not the identity on it. -/
theorem c2_round_trip_counterexample :
    (∀ f ∈ c2BadKB.facts,
      f.description ≠ [] ∧ '|' ∉ f.description ∧ '\n' ∉ f.description)
    ∧ parse_knowledge_base_response c2BadKB.to_markdown ≠ c2BadKB := by
  decide

/-- Claim C2 (amended): for every knowledge base whose title survives the
`strip('# ').strip()` extraction and whose facts have trimmed, `|`-free,
newline-free descriptions and validation dates,
`_parse_knowledge_base_response (kb.to_markdown())` returns `kb` exactly
(same title, same fact order, every field of every fact). -/
theorem c2_round_trip_amended (kb : KnowledgeBase) (h : roundTripSafe kb) :
    parse_knowledge_base_response kb.to_markdown = kb :=
  parse_round_trip kb h

/-- Witness for `c2_round_trip_amended` at a two-fact knowledge base. -/
theorem c2_round_trip_amended_witness :
    roundTripSafe c2GoodKB
    ∧ parse_knowledge_base_response c2GoodKB.to_markdown = c2GoodKB := by
  have h : roundTripSafe c2GoodKB := by decide
  exact ⟨h, c2_round_trip_amended c2GoodKB h⟩

/-- Claim C3: whenever `process_custom_input` reports `success = false`,
the returned knowledge base is the original input unchanged and an error
message is set; on `success = true` no error message is set; and every
oracle outcome produces a `ProcessingResponse` (the embedding is a total
function — the source catches every exception of the service call). -/
theorem c3_failure_preserves_original (req : ProcessingRequest)
    (oracle : OracleOutcome) :
    ((process_custom_input req oracle).success = false →
      (process_custom_input req oracle).updated_knowledge_base
          = req.current_knowledge_base
      ∧ (process_custom_input req oracle).error_message = some failMsg)
    ∧ ((process_custom_input req oracle).success = true →
      (process_custom_input req oracle).error_message = none)
    ∧ ((process_custom_input req oracle).success = true
        ∨ (process_custom_input req oracle).success = false) := by
  cases oracle with
  | none => exact ⟨fun _ => ⟨rfl, rfl⟩,
      fun h => by simp [process_custom_input, update_knowledge_base] at h,
      Or.inr rfl⟩
  | some r => exact ⟨fun h => by
      simp [process_custom_input, update_knowledge_base] at h,
      fun _ => rfl, Or.inl rfl⟩

/-- Witness for `c3_failure_preserves_original` at a failed oracle call. -/
theorem c3_failure_preserves_original_witness :
    (process_custom_input cexRequest none).updated_knowledge_base
      = cexRequest.current_knowledge_base
    ∧ (process_custom_input cexRequest none).error_message = some failMsg :=
  (c3_failure_preserves_original cexRequest none).1 (by decide)

/-- Claim C4, counterexample: with the remote store erroring and a local
snapshot present (whose contents differ from the built-in default),
`get_current_knowledge_base` still returns the built-in hardcoded
knowledge base, not the snapshot contents. -/
theorem c4_fallback_counterexample :
    get_current_knowledge_base ⟨RemoteFacts.err, some snapshotFacts⟩
      = hardcodedKnowledgeBase
    ∧ hardcodedKnowledgeBase.facts ≠ snapshotFacts :=
  ⟨rfl, by decide⟩

/-- Claim C4 (amended): `get_current_knowledge_base` ignores the remote
store and any local snapshot and always returns the built-in hardcoded
knowledge base; `SupabaseService.fetch_knowledge_base` returns `None` on
missing credentials, on error and on an empty result, and the fetched rows
otherwise — but no caller wires it into `get_current_knowledge_base`. -/
theorem c4_fallback_amended (env : DataEnv) (rows : List Fact) :
    get_current_knowledge_base env = hardcodedKnowledgeBase
    ∧ fetch_knowledge_base RemoteFacts.noClient = none
    ∧ fetch_knowledge_base RemoteFacts.err = none
    ∧ fetch_knowledge_base (RemoteFacts.ok []) = none
    ∧ (rows ≠ [] → fetch_knowledge_base (RemoteFacts.ok rows)
        = some ⟨defaultTitle, rows⟩) := by
  refine ⟨rfl, rfl, rfl, rfl, fun h => ?_⟩
  show (if (rows.isEmpty : Bool) = true then none
    else some (⟨defaultTitle, rows⟩ : KnowledgeBase)) = _
  rw [if_neg (by simpa using h)]

/-- Witness for `c4_fallback_amended` at a non-empty remote result. -/
theorem c4_fallback_amended_witness :
    snapshotFacts ≠ []
    ∧ fetch_knowledge_base (RemoteFacts.ok snapshotFacts)
        = some ⟨defaultTitle, snapshotFacts⟩ := by
  have h : snapshotFacts ≠ [] := by decide
  exact ⟨h, (c4_fallback_amended ⟨RemoteFacts.err, some snapshotFacts⟩
    snapshotFacts).2.2.2.2 h⟩

/-- Claim C5: the classifier is a pure function of the lower-cased task
text applying three rules in fixed order — any requires-human keyword
forces `true` regardless of other content; otherwise an automatable
keyword together with a facts/knowledge-base/validation/data reference
gives `false`; otherwise the default is `true` — and the three documented
examples classify as specified. -/
theorem c5_classifier_rules (task : Str) :
    (human_needed_keywords.any
        (fun k => containsSub (toLowerStr task) k) = true →
      analyze_if_task_needs_human task = true)
    ∧ (human_needed_keywords.any
          (fun k => containsSub (toLowerStr task) k) = false →
        automated_keywords.any
          (fun k => containsSub (toLowerStr task) k) = true →
        kb_indicators.any (fun i => containsSub (toLowerStr task) i) = true →
        analyze_if_task_needs_human task = false)
    ∧ (human_needed_keywords.any
          (fun k => containsSub (toLowerStr task) k) = false →
        (automated_keywords.any
            (fun k => containsSub (toLowerStr task) k) = false
          ∨ kb_indicators.any
              (fun i => containsSub (toLowerStr task) i) = false) →
        analyze_if_task_needs_human task = true)
    ∧ analyze_if_task_needs_human
        ("Confirm with stakeholder about rollout date".toList) = true
    ∧ analyze_if_task_needs_human
        ("Update validation dates for stale facts".toList) = false
    ∧ analyze_if_task_needs_human
        ("Reorganize documentation".toList) = true := by
  refine ⟨fun h => ?_, fun h1 h2 h3 => ?_, fun h1 h2 => ?_,
    by decide, by decide, by decide⟩
  · unfold analyze_if_task_needs_human
    rw [if_pos h]
  · unfold analyze_if_task_needs_human
    rw [if_neg (by simp [h1])]
    rw [if_pos (by
      rw [List.any_eq_true] at h2 ⊢
      obtain ⟨k, hk, hck⟩ := h2
      exact ⟨k, hk, by simp [hck, h3]⟩)]
  · unfold analyze_if_task_needs_human
    rw [if_neg (by simp [h1])]
    have hcond : automated_keywords.any (fun k =>
        containsSub (toLowerStr task) k
          && kb_indicators.any (fun i => containsSub (toLowerStr task) i))
        = false := by
      rcases h2 with ha | hi
      · rw [List.any_eq_false] at ha ⊢
        intro x hx
        simp [ha x hx]
      · simp [hi]
    rw [if_neg (by simp [hcond])]

/-- Witness for `c5_classifier_rules` at the stakeholder example. -/
theorem c5_classifier_rules_witness :
    human_needed_keywords.any (fun k => containsSub
      (toLowerStr ("Confirm with stakeholder about rollout date".toList)) k)
        = true
    ∧ analyze_if_task_needs_human
        ("Confirm with stakeholder about rollout date".toList) = true := by
  have h : human_needed_keywords.any (fun k => containsSub
      (toLowerStr ("Confirm with stakeholder about rollout date".toList)) k)
        = true := by decide
  exact ⟨h, (c5_classifier_rules _).1 h⟩

/-- Claim C6, counterexample: one malformed row (too few fields)
interleaved after one well-formed row is skipped and parsing yields
exactly the well-formed fact — but no diagnostic warning is produced for
the skipped row, contradicting "each skipped row produces a diagnostic
note". -/
theorem c6_parser_tolerance_counterexample :
    malformedRow ("| **9** |".toList)
    ∧ (parse_knowledge_base_response fieldCountCounterText).facts
        = [⟨1, "Coverage is 60%".toList, "2025-01-01".toList⟩]
    ∧ parseWarnings fieldCountCounterText = 0 := by
  decide

/-- Claim C6 (amended): for table text of N well-formed fact rows with one
malformed row interleaved among them, the parser yields exactly the N
facts in their original relative order and the malformed row never aborts
parsing of subsequent rows; a diagnostic warning is logged exactly when
the malformed row passes the delimiter and field-count checks but its
number field fails integer parsing — rows failing the delimiter or
field-count checks are skipped silently. -/
theorem c6_parser_tolerance_amended (facts1 facts2 : List Fact) (bad : Str)
    (hwf : ∀ f ∈ facts1 ++ facts2, wellFormedFact f)
    (hmal : malformedRow bad) (hb1 : stripWs bad = bad) (hb2 : bad ≠ [])
    (hb3 : '\n' ∉ bad) :
    (parse_knowledge_base_response (joinSep '\n' (tableHeaderLine
        :: tableSeparatorLine :: (facts1.map Fact.to_table_row
          ++ bad :: facts2.map Fact.to_table_row)))).facts
      = facts1 ++ facts2
    ∧ parseWarnings (joinSep '\n' (tableHeaderLine
        :: tableSeparatorLine :: (facts1.map Fact.to_table_row
          ++ bad :: facts2.map Fact.to_table_row)))
      = if warnSkip bad then 1 else 0 := by
  have h := parse_tolerance_core facts1 facts2 bad hwf hmal hb1 hb2 hb3
  constructor
  · show (parseScan _).facts = _
    rw [h]
  · show (parseScan _).warnings = _
    rw [h]

/-- Witness for `c6_parser_tolerance_amended` with a bad-number row. -/
theorem c6_parser_tolerance_amended_witness :
    malformedRow ("| **x** | bad | row |".toList)
    ∧ (parse_knowledge_base_response (joinSep '\n' (tableHeaderLine
        :: tableSeparatorLine :: ([sampleFact1].map Fact.to_table_row
          ++ ("| **x** | bad | row |".toList)
            :: [sampleFact2].map Fact.to_table_row)))).facts
      = [sampleFact1] ++ [sampleFact2] := by
  have hm : malformedRow ("| **x** | bad | row |".toList) := by decide
  exact ⟨hm, (c6_parser_tolerance_amended [sampleFact1] [sampleFact2] _
    (by decide) hm (by decide) (by decide) (by decide)).1⟩

/-- Claim C7, counterexample: the row `| 3 | some fact | 2025-01-01 |` is
pipe-delimited, splits into three trimmed fields, and its first field
parses as an integer — yet the parser accepts no fact from it, because the
row guard requires the literal prefix `| **`. -/
theorem c7_row_acceptance_counterexample :
    rowParts ("| 3 | some fact | 2025-01-01 |".toList)
      = ["3".toList, "some fact".toList, "2025-01-01".toList]
    ∧ parseIntPy (stripWs (pyReplace ("3".toList) boldMark [])) = some 3
    ∧ (parse_knowledge_base_response unboldedRowText).facts = [] := by
  decide

/-- Claim C7 (amended): while the parser is in the table state, every line
whose stripped form starts with `| **` and ends with ` |` (and is not a
header/separator marker), whose interior splits into three or more trimmed
fields, and whose first field parses as an integer after stripping `**`,
is accepted as a fact built from its first three fields — the third field
passes through as the validation date with no format check; rows whose
number field is not bolded fail the `| **` prefix test and are skipped. -/
theorem c7_row_acceptance_amended {l : Str} {p0 p1 p2 : Str}
    {rest : List Str} {n : Int}
    (hm : lineMarker (stripWs l) = false) (hs : rowShaped (stripWs l) = true)
    (hp : rowParts (stripWs l) = p0 :: p1 :: p2 :: rest)
    (hn : parseIntPy (stripWs (pyReplace p0 boldMark [])) = some n)
    (fs : List Fact) (w : Nat) :
    parseLine ⟨true, fs, w⟩ l = ⟨true, fs ++ [⟨n, p1, p2⟩], w⟩ :=
  parseLine_accepts hm hs hp hn fs w

/-- Witness for `c7_row_acceptance_amended` at a row whose third field is
not a date at all. -/
theorem c7_row_acceptance_amended_witness :
    rowParts (stripWs ("| **7** | desc text | anything goes here |".toList))
      = ["**7**".toList, "desc text".toList, "anything goes here".toList]
    ∧ parseLine ⟨true, [], 0⟩ ("| **7** | desc text | anything goes here |".toList)
      = ⟨true, [] ++ [⟨7, "desc text".toList, "anything goes here".toList⟩], 0⟩ := by
  have hp : rowParts (stripWs ("| **7** | desc text | anything goes here |".toList))
      = ["**7**".toList, "desc text".toList, "anything goes here".toList] := by
    decide
  exact ⟨hp, c7_row_acceptance_amended (by decide) (by decide) hp (by decide) [] 0⟩

/-- Claim C8: evaluation of the transition calls. `mark_task_in_progress`
returns the boolean from the store call, but `mark_task_completed` and
`cancel_task` pass a third positional argument to the two-parameter
`update_task_status`, so Python raises `TypeError` unconditionally —
contradicting the claim that every documented transition call returns a
boolean and never raises. -/
theorem c8_transition_calls (st : TaskStore) (task_id : Int)
    (notes reason : Option Str) :
    mark_task_in_progress st task_id
        = Except.ok (update_task_status st task_id ("in_progress".toList))
    ∧ mark_task_completed st task_id notes = Except.error typeErrorMsg
    ∧ cancel_task st task_id reason = Except.error typeErrorMsg :=
  ⟨rfl, rfl, rfl⟩

/-- Claim C9: the request shape is selected purely by the model-name
prefix test — reasoning-family models (`o1` for the knowledge update,
`o1`/`o3` for task execution) get a single user-role message and no
temperature; all other models get a system plus user message with
temperature fixed at 0.1. -/
theorem c9_request_shapes (model prompt : Str) :
    (strStarts model ("o1".toList) = true →
      (update_kb_request model prompt).messages.map ChatMessage.role
          = [Role.user]
      ∧ (update_kb_request model prompt).temperature = none)
    ∧ (strStarts model ("o1".toList) = false →
      (update_kb_request model prompt).messages.map ChatMessage.role
          = [Role.system, Role.user]
      ∧ (update_kb_request model prompt).temperature = some (0.1 : Rat))
    ∧ ((strStarts model ("o1".toList) || strStarts model ("o3".toList)) = true →
      (task_exec_request model prompt).messages.map ChatMessage.role
          = [Role.user]
      ∧ (task_exec_request model prompt).temperature = none)
    ∧ ((strStarts model ("o1".toList) || strStarts model ("o3".toList)) = false →
      (task_exec_request model prompt).messages.map ChatMessage.role
          = [Role.system, Role.user]
      ∧ (task_exec_request model prompt).temperature = some (0.1 : Rat)) := by
  refine ⟨fun h => ?_, fun h => ?_, fun h => ?_, fun h => ?_⟩
  · have h1 : strStarts model ['o', '1'] = true := h
    simp [update_kb_request, h1]
  · have h1 : strStarts model ['o', '1'] = false := h
    simp [update_kb_request, h1]
  · have h1 : (strStarts model ['o', '1'] || strStarts model ['o', '3'])
        = true := h
    simp [task_exec_request, h1]
  · have h1 : (strStarts model ['o', '1'] || strStarts model ['o', '3'])
        = false := h
    simp [task_exec_request, h1]

/-- Witness for `c9_request_shapes` at `o1-preview`, `gpt-4o`, `o3-mini`. -/
theorem c9_request_shapes_witness :
    (update_kb_request ("o1-preview".toList) ("p".toList)).messages.map
        ChatMessage.role = [Role.user]
    ∧ (update_kb_request ("gpt-4o".toList) ("p".toList)).temperature
        = some (0.1 : Rat)
    ∧ (task_exec_request ("o3-mini".toList) ("p".toList)).messages.map
        ChatMessage.role = [Role.user] :=
  ⟨((c9_request_shapes _ _).1 (by decide)).1,
   ((c9_request_shapes _ _).2.1 (by decide)).2,
   ((c9_request_shapes _ _).2.2.1 (by decide)).1⟩

/-- Claim C10: the response parser is total (the embedding is a total
function; the source catches row-level `ValueError`/`IndexError` per
row); text with no `#` heading line yields the fixed default title, and
text with no table marker line yields an empty facts list. -/
theorem c10_parser_totality (s : Str) :
    ((∀ l ∈ splitCh '\n' (stripWs s),
        (strStarts l ("#".toList) && !strStarts l ("##".toList)) = false) →
      (parse_knowledge_base_response s).title = defaultTitle)
    ∧ ((∀ l ∈ splitCh '\n' (stripWs s), lineMarker (stripWs l) = false) →
      (parse_knowledge_base_response s).facts = []) := by
  constructor
  · intro h
    show findTitle (splitCh '\n' (stripWs s)) = defaultTitle
    exact findTitle_default h
  · intro h
    show (parseScan s).facts = []
    unfold parseScan
    rw [foldl_parseLine_out h]

/-- Witness for `c10_parser_totality` at a table-free, heading-free
reply. -/
theorem c10_parser_totality_witness :
    (parse_knowledge_base_response
        ("no table in this reply at all".toList)).title = defaultTitle
    ∧ (parse_knowledge_base_response
        ("no table in this reply at all".toList)).facts = [] :=
  ⟨(c10_parser_totality _).1 (by decide), (c10_parser_totality _).2 (by decide)⟩

end KM
